import Mathlib

/-!
# Verification model of the MNIST Experiment Manager (HWM)

Shallow embedding of the experiment store, HTTP route handlers and the
lifecycle runner of the repository:

* `lib/db` (source file `src/unnamed/part_003`): the sqlite-backed store
  (`createExperiment`, `deleteExperiment`, `findSimilarExperiment`,
  `queueExperiment`, `runExperiment`, `getExperimentDetails`).
* `src/app/api/experiments/route.ts`: the `POST /experiments` handler.
* `src/unnamed/part_001`: the `DELETE /experiments/[id]` and
  `POST /experiments/[id]/run` handlers.
* `src/components/experiment-form.tsx`: the client-side zod `formSchema`.

Modelling conventions:
* SQL rows are Lean structures; the two tables are Lean lists.  `UPDATE ...
  WHERE id = ?` maps over all rows with a matching id, `SELECT ... WHERE id = ?`
  via `db.get` takes the first match, `DELETE ... WHERE` filters, matching
  SQL semantics.
* JavaScript numbers: the INTEGER columns are modelled as `ℤ`, the REAL
  `learning_rate` column as `ℚ` (never used in arithmetic), and the simulated
  metric values as `ℝ` (they are produced by `Math.exp`/`Math.random`); the
  random stream `Math.random()` is an abstract function `U : ℕ → ℝ`, drawn at
  successive indices, and wall-clock durations are an abstract parameter.
* A JSON request body may omit fields, so the create-request fields are
  `Option`s; JavaScript truthiness (`!data.x`) is modelled per field type.
* The asynchronous runner (`setTimeout` + per-epoch `await`s) is modelled by
  a trace of primitive store events; a system state is the store plus the
  scheduled/partially-executed runner tasks, and `SysStep` is the
  interleaving small-step relation.
* `created_at` timestamps and list sorting are not modelled; no claim
  concerns them.
-/

noncomputable section

/-- The experiment configuration tuple (the NOT NULL columns supplied by the
client on creation). -/
structure Config where
  name : String
  learning_rate : ℚ
  batch_size : ℤ
  epochs : ℤ
  optimizer : String
  model_type : String
  hidden_layers : ℤ
  neurons_per_layer : ℤ
deriving DecidableEq

/-- A `POST /experiments` JSON body: every field may be absent. -/
structure CreateRequest where
  name : Option String
  learning_rate : Option ℚ
  batch_size : Option ℤ
  epochs : Option ℤ
  optimizer : Option String
  model_type : Option String
  hidden_layers : Option ℤ
  neurons_per_layer : Option ℤ

/-- JavaScript truthiness of an optional string: absent and `""` are falsy. -/
def truthyStr : Option String → Bool
  | none => false
  | some s => decide (s ≠ "")

/-- JavaScript truthiness of an optional rational: absent and `0` are falsy. -/
def truthyRat : Option ℚ → Bool
  | none => false
  | some x => decide (x ≠ 0)

/-- JavaScript truthiness of an optional integer: absent and `0` are falsy. -/
def truthyInt : Option ℤ → Bool
  | none => false
  | some x => decide (x ≠ 0)

/-- The presence check of the POST handler (route.ts line 23):
`!data.name || !data.learning_rate || !data.batch_size || !data.epochs ||
!data.optimizer`.  Only these five fields are tested, by truthiness. -/
def requiredFieldsPresent (r : CreateRequest) : Bool :=
  truthyStr r.name && truthyRat r.learning_rate && truthyInt r.batch_size &&
    truthyInt r.epochs && truthyStr r.optimizer

/-- The INSERT succeeds only when every NOT NULL column gets a value; an
absent field is bound as NULL and the insert throws.  `toConfig?` returns the
row contents when all eight fields are present. -/
def toConfig? (r : CreateRequest) : Option Config :=
  match r.name, r.learning_rate, r.batch_size, r.epochs, r.optimizer,
      r.model_type, r.hidden_layers, r.neurons_per_layer with
  | some nm, some lr, some bs, some ep, some op, some mt, some hl, some np =>
      some ⟨nm, lr, bs, ep, op, mt, hl, np⟩
  | _, _, _, _, _, _, _, _ => none

/-- A row of the `experiments` table. -/
structure ExperimentRec where
  id : ℕ
  name : String
  learning_rate : ℚ
  batch_size : ℤ
  epochs : ℤ
  optimizer : String
  model_type : String
  hidden_layers : ℤ
  neurons_per_layer : ℤ
  status : String
  accuracy : Option ℝ
  loss : Option ℝ
  duration : Option ℝ
  current_epoch : ℤ

/-- A row of the `experiment_history` table. -/
structure HistoryRow where
  experiment_id : ℕ
  epoch : ℤ
  train_loss : ℝ
  val_loss : ℝ
  train_acc : ℝ
  val_acc : ℝ

/-- The persistent store: the two tables plus the AUTOINCREMENT counter. -/
structure Store where
  experiments : List ExperimentRec
  history : List HistoryRow
  nextId : ℕ

/-- `SELECT * FROM experiments WHERE id = ?` via `db.get`: first matching row. -/
def lookupExp (id : ℕ) (st : Store) : Option ExperimentRec :=
  st.experiments.find? (fun x => decide (x.id = id))

/-- `SELECT ... FROM experiment_history WHERE experiment_id = ? ORDER BY epoch`. -/
def historyFor (id : ℕ) (st : Store) : List HistoryRow :=
  List.insertionSort (fun a b => a.epoch ≤ b.epoch)
    (st.history.filter (fun h => decide (h.experiment_id = id)))

/-- `SELECT ... WHERE experiment_id = ? ORDER BY epoch DESC LIMIT 1`
(the final-metrics query of `runExperiment`). -/
def lastHistory (id : ℕ) (st : Store) : Option HistoryRow :=
  (historyFor id st).getLast?

/-- `UPDATE experiments SET ... WHERE id = ?`: rewrite every matching row. -/
def updateExp (id : ℕ) (f : ExperimentRec → ExperimentRec) (st : Store) : Store :=
  { st with experiments := st.experiments.map (fun x => if x.id = id then f x else x) }

/-- The row inserted by `createExperiment`: the config columns plus the
schema defaults `status='not_started'`, `current_epoch=0` and NULL results. -/
def newRecord (c : Config) (idv : ℕ) : ExperimentRec :=
  { id := idv, name := c.name, learning_rate := c.learning_rate,
    batch_size := c.batch_size, epochs := c.epochs, optimizer := c.optimizer,
    model_type := c.model_type, hidden_layers := c.hidden_layers,
    neurons_per_layer := c.neurons_per_layer, status := "not_started",
    accuracy := none, loss := none, duration := none, current_epoch := 0 }

/-- `db.createExperiment`: INSERT the row, then re-fetch it by
`result.lastID` (the fetched row is the returned response body). -/
def createExperiment (c : Config) (st : Store) : Option ExperimentRec × Store :=
  let st' : Store := { st with
    experiments := st.experiments ++ [newRecord c st.nextId],
    nextId := st.nextId + 1 }
  (lookupExp st.nextId st', st')

/-- `db.deleteExperiment`: DELETE the history rows, then the experiment row. -/
def deleteExperiment (id : ℕ) (st : Store) : Store :=
  let st1 : Store := { st with
    history := st.history.filter (fun h => decide (h.experiment_id ≠ id)) }
  { st1 with experiments := st1.experiments.filter (fun x => decide (x.id ≠ id)) }

/-- One SQL equality `col = ?` where the bound parameter may be NULL
(an absent request field): NULL never compares equal. -/
def matchOpt {α : Type} [DecidableEq α] (v : α) : Option α → Bool
  | none => false
  | some x => decide (v = x)

/-- The WHERE clause of `db.findSimilarExperiment`: the seven configuration
columns (the name is not part of the tuple). -/
def cfgMatch (x : ExperimentRec) (r : CreateRequest) : Bool :=
  matchOpt x.learning_rate r.learning_rate && matchOpt x.batch_size r.batch_size &&
    matchOpt x.epochs r.epochs && matchOpt x.optimizer r.optimizer &&
    matchOpt x.model_type r.model_type && matchOpt x.hidden_layers r.hidden_layers &&
    matchOpt x.neurons_per_layer r.neurons_per_layer

/-- `db.findSimilarExperiment`: first row matching the configuration tuple. -/
def findSimilarExperiment (r : CreateRequest) (st : Store) : Option ExperimentRec :=
  st.experiments.find? (fun x => cfgMatch x r)

/-- The store mutation of `db.queueExperiment`: set `status='queued'` and
`current_epoch=0`, then delete the prior history.  (The `setTimeout` that
schedules `runExperiment` is modelled at the system level.) -/
def queueStore (id : ℕ) (st : Store) : Store :=
  let st1 := updateExp id (fun x => { x with status := "queued", current_epoch := 0 }) st
  { st1 with history := st1.history.filter (fun h => decide (h.experiment_id ≠ id)) }

/-- A primitive store operation performed by `runExperiment` between two
suspension points. -/
inductive REvent where
  | setRunning
  | setEpoch (e : ℕ)
  | sleep
  | insertHist (e : ℕ) (tl vl ta va : ℝ)
  | finalize (dur : ℝ)

/-- Apply one runner event for experiment `id` to the store.  `finalize`
reads the last history row; when there is none (`epochs < 1` leaves the loop
body unexecuted), the undefined-property access throws and the catch block
sets `status='failed'`. -/
def applyEvent (id : ℕ) (st : Store) : REvent → Store
  | REvent.setRunning => updateExp id (fun x => { x with status := "running" }) st
  | REvent.setEpoch e => updateExp id (fun x => { x with current_epoch := (e : ℤ) }) st
  | REvent.sleep => st
  | REvent.insertHist e tl vl ta va =>
      { st with history := st.history ++ [⟨id, (e : ℤ), tl, vl, ta, va⟩] }
  | REvent.finalize dur =>
      match lastHistory id st with
      | none => updateExp id (fun x => { x with status := "failed" }) st
      | some last => updateExp id (fun x =>
          { x with status := "completed", accuracy := some last.val_acc,
                   loss := some last.val_loss, duration := some dur }) st

/-- The loop body of `runExperiment` for one epoch `e`, in source order:
update `current_epoch`, sleep 1000 ms, generate the four metrics from
`Math.exp` and fresh `Math.random()` draws, insert the history row. -/
def epochEvents (U : ℕ → ℝ) (e : ℕ) : List REvent :=
  [REvent.setEpoch e, REvent.sleep,
   REvent.insertHist e
     (0.5 * Real.exp (-(0.1) * (e : ℝ)) + 0.1 * U (4 * (e - 1)))
     (0.6 * Real.exp (-(0.1) * (e : ℝ)) + 0.15 * U (4 * (e - 1) + 1))
     (0.9 - 0.5 * Real.exp (-(0.2) * (e : ℝ)) + 0.05 * U (4 * (e - 1) + 2))
     (0.85 - 0.5 * Real.exp (-(0.2) * (e : ℝ)) + 0.05 * U (4 * (e - 1) + 3))]

/-- `for (let epoch = start; epoch < start + k; epoch++)`: the events of `k`
consecutive epochs starting at `start`. -/
def epochsTrace (U : ℕ → ℝ) : ℕ → ℕ → List REvent
  | _, 0 => []
  | start, k + 1 => epochEvents U start ++ epochsTrace U (start + 1) k

/-- The full event trace of `runExperiment` for an experiment with `n`
(`= max 0 epochs`) loop iterations. -/
def runnerTrace (U : ℕ → ℝ) (dur : ℝ) (n : ℕ) : List REvent :=
  REvent.setRunning :: (epochsTrace U 1 n ++ [REvent.finalize dur])

/-- `db.runExperiment`: fetch the experiment (silently return when absent),
then execute the trace. -/
def runExperiment (U : ℕ → ℝ) (dur : ℝ) (id : ℕ) (st : Store) : Store :=
  match lookupExp id st with
  | none => st
  | some x0 => (runnerTrace U dur x0.epochs.toNat).foldl (applyEvent id) st

/-- The successive store states observable while `runExperiment` executes
(before the run plus after each primitive event). -/
def runStates (U : ℕ → ℝ) (dur : ℝ) (id : ℕ) (st : Store) : List Store :=
  match lookupExp id st with
  | none => [st]
  | some x0 => (runnerTrace U dur x0.epochs.toNat).scanl (applyEvent id) st

/-- `queueExperiment` followed by the `setTimeout`-scheduled `runExperiment`. -/
def queueAndRun (U : ℕ → ℝ) (dur : ℝ) (id : ℕ) (st : Store) : Store :=
  runExperiment U dur id (queueStore id st)

/-- The history row `runExperiment` inserts for epoch `e`. -/
def mkRow (U : ℕ → ℝ) (id e : ℕ) : HistoryRow :=
  { experiment_id := id, epoch := (e : ℤ),
    train_loss := 0.5 * Real.exp (-(0.1) * (e : ℝ)) + 0.1 * U (4 * (e - 1)),
    val_loss := 0.6 * Real.exp (-(0.1) * (e : ℝ)) + 0.15 * U (4 * (e - 1) + 1),
    train_acc := 0.9 - 0.5 * Real.exp (-(0.2) * (e : ℝ)) + 0.05 * U (4 * (e - 1) + 2),
    val_acc := 0.85 - 0.5 * Real.exp (-(0.2) * (e : ℝ)) + 0.05 * U (4 * (e - 1) + 3) }

/-- The history rows of `k` consecutive epochs starting at `start`. -/
def mkRows (U : ℕ → ℝ) (id : ℕ) : ℕ → ℕ → List HistoryRow
  | _, 0 => []
  | start, k + 1 => mkRow U id start :: mkRows U id (start + 1) k

/-- The `current_epoch` column of experiment `id` (0 when the row is absent). -/
def ceOf (id : ℕ) (st : Store) : ℤ :=
  ((lookupExp id st).map (fun x => x.current_epoch)).getD 0

/-- The `status` column of experiment `id`, when the row exists. -/
def statusOf (id : ℕ) (st : Store) : Option String :=
  (lookupExp id st).map (fun x => x.status)

/-- Outcome of the `POST /experiments` handler. -/
inductive PostResult where
  | missingFields
  | conflict (existingId : ℕ)
  | created (body : ExperimentRec)
  | serverError
deriving Inhabited

/-- HTTP status code attached to each POST outcome in route.ts. -/
def postStatus : PostResult → ℕ
  | PostResult.missingFields => 400
  | PostResult.conflict _ => 409
  | PostResult.created _ => 201
  | PostResult.serverError => 500

/-- Outcome of the `DELETE /experiments/[id]` handler. -/
inductive DeleteResult where
  | notFound
  | cannotDeleteRunning
  | success
deriving DecidableEq

/-- HTTP status code attached to each DELETE outcome. -/
def deleteStatus : DeleteResult → ℕ
  | DeleteResult.notFound => 404
  | DeleteResult.cannotDeleteRunning => 400
  | DeleteResult.success => 200

/-- Outcome of the `POST /experiments/[id]/run` handler. -/
inductive RunResult where
  | notFound
  | alreadyActive
  | success
deriving DecidableEq

/-- A scheduled lifecycle-runner task: either the `setTimeout` callback not
yet fired, or a started run with its remaining events. -/
inductive RTask where
  | pending (id : ℕ)
  | started (id : ℕ) (evs : List REvent)

/-- The experiment id a task belongs to. -/
def taskIdOf : RTask → ℕ
  | RTask.pending i => i
  | RTask.started i _ => i

/-- Whole-system state: the store plus the scheduled runner tasks. -/
structure Sys where
  store : Store
  tasks : List RTask

/-- The `POST /experiments` handler (route.ts): truthiness presence check,
duplicate-configuration check, insert, queue; the 201 body is the row as
fetched right after the insert and before queueing.  When the re-fetch after
insert fails, `experiment.id` throws after the row was inserted (500). -/
def postApi (r : CreateRequest) (sys : Sys) : PostResult × Sys :=
  if requiredFieldsPresent r = false then (PostResult.missingFields, sys)
  else
    match findSimilarExperiment r sys.store with
    | some x0 => (PostResult.conflict x0.id, sys)
    | none =>
      match toConfig? r with
      | none => (PostResult.serverError, sys)
      | some c =>
        match createExperiment c sys.store with
        | (none, st1) => (PostResult.serverError, { sys with store := st1 })
        | (some body, st1) =>
            (PostResult.created body,
             { store := queueStore body.id st1,
               tasks := sys.tasks ++ [RTask.pending body.id] })

/-- The `DELETE /experiments/[id]` handler (`src/unnamed/part_001`). -/
def deleteApi (id : ℕ) (sys : Sys) : DeleteResult × Sys :=
  match lookupExp id sys.store with
  | none => (DeleteResult.notFound, sys)
  | some x0 =>
      if x0.status = "running" then (DeleteResult.cannotDeleteRunning, sys)
      else (DeleteResult.success, { sys with store := deleteExperiment id sys.store })

/-- The `POST /experiments/[id]/run` handler (`src/unnamed/part_001`). -/
def runApi (id : ℕ) (sys : Sys) : RunResult × Sys :=
  match lookupExp id sys.store with
  | none => (RunResult.notFound, sys)
  | some x0 =>
      if x0.status = "running" ∨ x0.status = "queued" then (RunResult.alreadyActive, sys)
      else (RunResult.success,
            { store := queueStore id sys.store,
              tasks := sys.tasks ++ [RTask.pending id] })

/-- Firing the `setTimeout` callback: `runExperiment` fetches the experiment
and either returns (row absent) or becomes a started run with the full trace. -/
def startTask (U : ℕ → ℝ) (dur : ℝ) (id : ℕ) (st : Store) : List RTask :=
  match lookupExp id st with
  | none => []
  | some x0 => [RTask.started id (runnerTrace U dur x0.epochs.toNat)]

/-- Small-step interleaving semantics of the system: an HTTP request is
handled, a scheduled callback fires, or an in-progress run performs its next
primitive store operation. -/
inductive SysStep : Sys → Sys → Prop where
  | post (r : CreateRequest) (sys : Sys) : SysStep sys (postApi r sys).2
  | del (id : ℕ) (sys : Sys) : SysStep sys (deleteApi id sys).2
  | runReq (id : ℕ) (sys : Sys) : SysStep sys (runApi id sys).2
  | startRun (U : ℕ → ℝ) (dur : ℝ) (id : ℕ) (st : Store) (pre suf : List RTask) :
      SysStep ⟨st, pre ++ RTask.pending id :: suf⟩
              ⟨st, pre ++ (startTask U dur id st ++ suf)⟩
  | stepRun (id : ℕ) (ev : REvent) (evs : List REvent) (st : Store) (pre suf : List RTask) :
      SysStep ⟨st, pre ++ RTask.started id (ev :: evs) :: suf⟩
              ⟨applyEvent id st ev, pre ++ RTask.started id evs :: suf⟩
  | dropTask (id : ℕ) (st : Store) (pre suf : List RTask) :
      SysStep ⟨st, pre ++ RTask.started id [] :: suf⟩ ⟨st, pre ++ suf⟩

/-- The empty initial system: no rows, AUTOINCREMENT at 1, no tasks. -/
def initSys : Sys := ⟨⟨[], [], 1⟩, []⟩

/-- States reachable from the empty system by any interleaving of requests
and runner steps. -/
def Reachable (sys : Sys) : Prop := Relation.ReflTransGen SysStep initSys sys

/-- The client-side zod `formSchema` of `experiment-form.tsx` as a predicate
on a configuration. -/
def formSchemaCheck (c : Config) : Bool :=
  decide (3 ≤ c.name.length) &&
  decide (mkRat 1 10000 ≤ c.learning_rate) && decide (c.learning_rate ≤ 1) &&
  decide (8 ≤ c.batch_size) && decide (c.batch_size ≤ 512) &&
  decide (1 ≤ c.epochs) && decide (c.epochs ≤ 50) &&
  decide (c.optimizer = "sgd" ∨ c.optimizer = "adam" ∨ c.optimizer = "adadelta") &&
  decide (c.model_type = "simple" ∨ c.model_type = "complex") &&
  decide (1 ≤ c.hidden_layers) && decide (c.hidden_layers ≤ 5) &&
  decide (32 ≤ c.neurons_per_layer) && decide (c.neurons_per_layer ≤ 512)

/-- Some configuration field is outside the bound or enum set declared in
the spec data model (§3). -/
@[reducible] def cfgOutOfBounds (c : Config) : Prop :=
  c.learning_rate < mkRat 1 10000 ∨ 1 < c.learning_rate ∨
  c.batch_size < 8 ∨ 512 < c.batch_size ∨
  c.epochs < 1 ∨ 50 < c.epochs ∨
  (c.optimizer ≠ "sgd" ∧ c.optimizer ≠ "adam" ∧ c.optimizer ≠ "adadelta") ∨
  (c.model_type ≠ "simple" ∧ c.model_type ≠ "complex") ∨
  c.hidden_layers < 1 ∨ 5 < c.hidden_layers ∨
  c.neurons_per_layer < 32 ∨ 512 < c.neurons_per_layer

/-- The seven-column configuration tuple of a stored row equals a config. -/
def tupleMatch (x : ExperimentRec) (c : Config) : Prop :=
  x.learning_rate = c.learning_rate ∧ x.batch_size = c.batch_size ∧
  x.epochs = c.epochs ∧ x.optimizer = c.optimizer ∧ x.model_type = c.model_type ∧
  x.hidden_layers = c.hidden_layers ∧ x.neurons_per_layer = c.neurons_per_layer

/-- A request with the three unchecked fields removed (used to state that
their absence does not trigger the missing-fields 400). -/
def stripModelFields (r : CreateRequest) : CreateRequest := { r with model_type := none, hidden_layers := none, neurons_per_layer := none }

/-- The store right after `createExperiment`'s INSERT. -/
def insertedStore (c : Config) (st : Store) : Store := { st with experiments := st.experiments ++ [newRecord c st.nextId], nextId := st.nextId + 1 }

/-- The store after a successful POST: the insert followed by queueing. -/
def postSuccessStore (c : Config) (st : Store) : Store := queueStore st.nextId (insertedStore c st)

/-- The metrics quadruple the spec declares for the i-th loop iteration
(0-based i, 1-based epoch i+1), with one fresh draw per metric. -/
def specMetricsRow (U : ℕ → ℝ) (id i : ℕ) : HistoryRow :=
  { experiment_id := id, epoch := ((i + 1 : ℕ) : ℤ),
    train_loss := 0.5 * Real.exp (-(0.1) * ((i + 1 : ℕ) : ℝ)) + 0.1 * U (4 * i),
    val_loss := 0.6 * Real.exp (-(0.1) * ((i + 1 : ℕ) : ℝ)) + 0.15 * U (4 * i + 1),
    train_acc := 0.9 - 0.5 * Real.exp (-(0.2) * ((i + 1 : ℕ) : ℝ)) + 0.05 * U (4 * i + 2),
    val_acc := 0.85 - 0.5 * Real.exp (-(0.2) * ((i + 1 : ℕ) : ℝ)) + 0.05 * U (4 * i + 3) }

/-! ## Invariants used to analyse reachable system states -/

/-- Every experiment row has `0 ≤ current_epoch`, and `current_epoch ≤ epochs`
whenever `epochs` is non-negative. -/
def EpochInv (st : Store) : Prop :=
  ∀ x ∈ st.experiments, 0 ≤ x.current_epoch ∧ (0 ≤ x.epochs → x.current_epoch ≤ x.epochs)

/-- Every experiment id is below the AUTOINCREMENT counter. -/
def IdLt (st : Store) : Prop := ∀ x ∈ st.experiments, x.id < st.nextId

/-- Experiment ids are pairwise distinct. -/
def IdsNodup (st : Store) : Prop := (st.experiments.map (fun x => x.id)).Nodup

/-- A pending runner event is consistent with the store: any `setEpoch e` it
will perform satisfies `1 ≤ e` and stays within the target row's `epochs`. -/
def evOK (st : Store) (id : ℕ) : REvent → Prop
  | REvent.setEpoch e => 1 ≤ e ∧ ∀ x ∈ st.experiments, x.id = id → (e : ℤ) ≤ x.epochs
  | _ => True

/-- All remaining events of a started task are consistent with the store. -/
def taskOK (st : Store) : RTask → Prop
  | RTask.pending _ => True
  | RTask.started id evs => ∀ ev ∈ evs, evOK st id ev

/-- The inductive system invariant. -/
def SysInv (sys : Sys) : Prop :=
  EpochInv sys.store ∧ IdLt sys.store ∧ IdsNodup sys.store ∧
    (∀ t ∈ sys.tasks, taskIdOf t < sys.store.nextId) ∧
    (∀ t ∈ sys.tasks, taskOK sys.store t)

/-- The value of the runner's epoch counter after a list of events, starting
from counter value `c`. -/
def traceCe (c : ℤ) : List REvent → ℤ
  | [] => c
  | REvent.setEpoch e :: rest => traceCe (e : ℤ) rest
  | REvent.setRunning :: rest => traceCe c rest
  | REvent.sleep :: rest => traceCe c rest
  | REvent.insertHist _ _ _ _ _ :: rest => traceCe c rest
  | REvent.finalize _ :: rest => traceCe c rest

/-- Well-formedness of a runner trace relative to the current epoch counter
`c`: each `setEpoch` strictly increases the counter and each history insert
is for an epoch not beyond the counter. -/
def TraceOK (c : ℤ) : List REvent → Prop
  | [] => True
  | REvent.setEpoch e :: rest => c < (e : ℤ) ∧ TraceOK (e : ℤ) rest
  | REvent.insertHist e _ _ _ _ :: rest => (e : ℤ) ≤ c ∧ TraceOK c rest
  | REvent.setRunning :: rest => TraceOK c rest
  | REvent.sleep :: rest => TraceOK c rest
  | REvent.finalize _ :: rest => TraceOK c rest

/-! ## Concrete instances used by witnesses and counterexamples -/

/-- A constant stand-in for the random stream. -/
def wU : ℕ → ℝ := fun _ => 0

/-- A fully valid configuration (the spec §8 scenario, 3 epochs). -/
def wCfg1 : Config :=
  ⟨"exp-a", mkRat 1 100, 64, 3, "adam", "simple", 2, 128⟩

/-- The fully populated create request for `wCfg1`. -/
def wReq1 : CreateRequest :=
  { name := some "exp-a", learning_rate := some (mkRat 1 100), batch_size := some 64,
    epochs := some 3, optimizer := some "adam", model_type := some "simple",
    hidden_layers := some 2, neurons_per_layer := some 128 }

/-- The system after one successful create request. -/
def wSys1 : Sys := (postApi wReq1 initSys).2

/-- The store row of `wSys1` (already queued). -/
def wQueuedBody : ExperimentRec :=
  { newRecord wCfg1 1 with status := "queued" }

/-- A second request with the same configuration tuple but another name. -/
def wReqDup : CreateRequest := { wReq1 with name := some "exp-b" }

/-- A second request with the same configuration tuple and an empty name. -/
def wReqEmptyName : CreateRequest := { wReq1 with name := some "" }

/-- A request whose epochs value (100) is outside the declared bound 1–50. -/
def c4Req : CreateRequest := { wReq1 with epochs := some 100 }

/-- The configuration carried by `c4Req`. -/
def c4Cfg : Config := ⟨"exp-a", mkRat 1 100, 64, 100, "adam", "simple", 2, 128⟩

/-- A request with a negative epochs value (truthy, so it passes the check). -/
def c5Req : CreateRequest := { wReq1 with epochs := some (-1) }

/-- The system after creating the negative-epochs experiment. -/
def c5SysBad : Sys := (postApi c5Req initSys).2

/-- The configuration carried by `c5Req`. -/
def c5Cfg : Config := ⟨"exp-a", mkRat 1 100, 64, -1, "adam", "simple", 2, 128⟩

/-- The stored negative-epochs row (queued by the create handler). -/
def c5BadRec : ExperimentRec := { newRecord c5Cfg 1 with status := "queued" }

/-- A request that is all-present but has a falsy epochs value `0`. -/
def c9ReqZero : CreateRequest := { wReq1 with epochs := some 0 }

/-- A request missing `model_type`, `hidden_layers`, `neurons_per_layer`. -/
def c9ReqNoModel : CreateRequest :=
  { wReq1 with model_type := none, hidden_layers := none, neurons_per_layer := none }

/-- An experiment row used by the run witnesses: id 1, 3 epochs. -/
def wExpRun : ExperimentRec := newRecord wCfg1 1

/-- A one-experiment store for the run witnesses. -/
def wRunStore : Store := ⟨[wExpRun], [], 2⟩

/-- A one-epoch experiment for the epoch-order analysis. -/
def w2Exp : ExperimentRec :=
  { newRecord wCfg1 1 with epochs := 1 }

/-- A one-experiment store with a single-epoch experiment. -/
def w2Store : Store := ⟨[w2Exp], [], 2⟩

/-- The default history row (used with `List.getD`). -/
def defaultRow : HistoryRow := ⟨0, 0, 0, 0, 0, 0⟩

/-- The observable state of the one-epoch run right after `current_epoch`
was set to 1 (the third state: initial, after `setRunning`, after `setEpoch 1`). -/
def w2Mid : Store :=
  (runStates wU 1 1 (queueStore 1 w2Store)).getD 2 (queueStore 1 w2Store)

/-- The final state of the one-epoch run. -/
def w2End : Store :=
  (runStates wU 1 1 (queueStore 1 w2Store)).getD 5 (queueStore 1 w2Store)

/-- The single history row of the finished one-epoch run. -/
def w2Row : HistoryRow := w2End.history.getD 0 defaultRow

/-- A completed experiment (id 1) next to a running one (id 2), with one
history row each. -/
def c6ExpDone : ExperimentRec :=
  { newRecord wCfg1 1 with status := "completed" }

/-- The running experiment of the delete witness. -/
def c6ExpRun : ExperimentRec :=
  { newRecord wCfg1 2 with status := "running" }

/-- The store of the delete witness. -/
def c6Store : Store :=
  ⟨[c6ExpDone, c6ExpRun], [⟨1, 1, 0, 0, 0, 0⟩, ⟨2, 1, 0, 0, 0, 0⟩], 3⟩

/-- The system of the delete witness. -/
def c6Sys : Sys := ⟨c6Store, []⟩

/-! ## Basic lemmas about the store operations -/

theorem history_updateExp (id : ℕ) (f : ExperimentRec → ExperimentRec) (st : Store) :
    (updateExp id f st).history = st.history := rfl

theorem nextId_updateExp (id : ℕ) (f : ExperimentRec → ExperimentRec) (st : Store) :
    (updateExp id f st).nextId = st.nextId := rfl

theorem mem_updateExp (id : ℕ) (f : ExperimentRec → ExperimentRec) (st : Store)
    (x' : ExperimentRec) :
    x' ∈ (updateExp id f st).experiments ↔
      ∃ x ∈ st.experiments, x' = if x.id = id then f x else x := by
  simp only [updateExp, List.mem_map, eq_comm]

theorem find?_map_update (id : ℕ) (f : ExperimentRec → ExperimentRec)
    (hf : ∀ x, (f x).id = x.id) :
    ∀ l : List ExperimentRec,
      (l.map (fun x => if x.id = id then f x else x)).find? (fun x => decide (x.id = id))
        = (l.find? (fun x => decide (x.id = id))).map f := by
  intro l
  induction l with
  | nil => rfl
  | cons a t ih =>
      by_cases h : a.id = id
      · simp [List.find?_cons, h, hf]
      · simp [List.find?_cons, h, ih]

theorem lookupExp_updateExp (id : ℕ) (f : ExperimentRec → ExperimentRec) (st : Store)
    (hf : ∀ x, (f x).id = x.id) :
    lookupExp id (updateExp id f st) = (lookupExp id st).map f := by
  simpa [lookupExp, updateExp] using find?_map_update id f hf st.experiments

theorem lookupExp_queueStore (id : ℕ) (st : Store) :
    lookupExp id (queueStore id st)
      = (lookupExp id st).map (fun x => { x with status := "queued", current_epoch := 0 }) := by
  unfold queueStore
  exact lookupExp_updateExp id _ st (fun x => rfl)

theorem history_queueStore (id : ℕ) (st : Store) :
    (queueStore id st).history
      = st.history.filter (fun h => decide (h.experiment_id ≠ id)) := rfl

theorem historyFor_filter_clear (id : ℕ) (l : List HistoryRow) :
    (l.filter (fun h => decide (h.experiment_id ≠ id))).filter
        (fun h => decide (h.experiment_id = id)) = [] := by
  rw [List.filter_eq_nil_iff]
  intro h hmem
  simp only [List.mem_filter, decide_eq_true_eq] at hmem
  simp [hmem.2]

theorem history_applyEvent_finalize (id : ℕ) (st : Store) (d : ℝ) :
    (applyEvent id st (REvent.finalize d)).history = st.history := by
  rcases hl : lastHistory id st with _ | last <;>
    simp [applyEvent, hl, history_updateExp]

theorem experiments_applyEvent_insertHist (id : ℕ) (st : Store) (e : ℕ) (tl vl ta va : ℝ) :
    (applyEvent id st (REvent.insertHist e tl vl ta va)).experiments = st.experiments := rfl

theorem lookup_applyEvent_isSome (id : ℕ) (st : Store) (ev : REvent)
    (h : (lookupExp id st).isSome) : (lookupExp id (applyEvent id st ev)).isSome := by
  cases ev with
  | setRunning =>
      rw [applyEvent, lookupExp_updateExp]
      · simpa using h
      · intro x; rfl
  | setEpoch e =>
      rw [applyEvent, lookupExp_updateExp]
      · simpa using h
      · intro x; rfl
  | sleep => exact h
  | insertHist e tl vl ta va => exact h
  | finalize d =>
      rcases hl : lastHistory id st with _ | last <;> simp only [applyEvent, hl] <;>
        rw [lookupExp_updateExp]
      · simpa using h
      · intro x; rfl
      · simpa using h
      · intro x; rfl

theorem lookup_foldl_isSome (id : ℕ) :
    ∀ (l : List REvent) (st : Store), (lookupExp id st).isSome →
      (lookupExp id (l.foldl (applyEvent id) st)).isSome := by
  intro l
  induction l with
  | nil => intro st h; exact h
  | cons ev t ih => intro st h; exact ih _ (lookup_applyEvent_isSome id st ev h)

/-! ## The history rows produced by the epoch loop -/

theorem mem_mkRows (U : ℕ → ℝ) (id : ℕ) :
    ∀ (k start : ℕ) (h : HistoryRow), h ∈ mkRows U id start k →
      h.experiment_id = id ∧ (start : ℤ) ≤ h.epoch ∧ h.epoch < (start : ℤ) + k := by
  intro k
  induction k with
  | zero => intro start h hm; simp [mkRows] at hm
  | succ k ih =>
      intro start h hm
      rcases (List.mem_cons).1 hm with h1 | h2
      · subst h1
        refine ⟨rfl, by simp [mkRow], by simp only [mkRow]; omega⟩
      · obtain ⟨hid, hlo, hhi⟩ := ih (start + 1) h h2
        refine ⟨hid, le_trans (by simp) hlo, ?_⟩
        have : ((start : ℤ) + 1) + k = (start : ℤ) + (k + 1) := by ring
        simpa [this] using hhi

theorem mkRows_sorted (U : ℕ → ℝ) (id : ℕ) :
    ∀ (k start : ℕ),
      List.Sorted (fun a b : HistoryRow => a.epoch ≤ b.epoch) (mkRows U id start k) := by
  intro k
  induction k with
  | zero => intro start; simp [mkRows]
  | succ k ih =>
      intro start
      rw [mkRows, List.sorted_cons]
      refine ⟨fun b hb => ?_, ih (start + 1)⟩
      have := (mem_mkRows U id k (start + 1) b hb).2.1
      calc (mkRow U id start).epoch = (start : ℤ) := by simp [mkRow]
        _ ≤ ((start : ℕ) + 1 : ℕ) := by simp
        _ ≤ b.epoch := by exact_mod_cast this

theorem mkRows_filter_self (U : ℕ → ℝ) (id : ℕ) (k start : ℕ) :
    (mkRows U id start k).filter (fun h => decide (h.experiment_id = id))
      = mkRows U id start k := by
  rw [List.filter_eq_self]
  intro h hm
  simp [(mem_mkRows U id k start h hm).1]

theorem mkRows_map_epoch (U : ℕ → ℝ) (id : ℕ) :
    ∀ (k start : ℕ),
      (mkRows U id start k).map (fun h => h.epoch)
        = (List.range k).map (fun i => ((start + i : ℕ) : ℤ)) := by
  intro k
  induction k with
  | zero => intro start; simp [mkRows]
  | succ k ih =>
      intro start
      rw [mkRows, List.range_succ_eq_map]
      simp only [List.map_cons, List.map_map]
      refine congrArg₂ _ (by simp [mkRow]) ?_
      rw [ih (start + 1)]
      refine List.map_congr_left ?_
      intro i _
      simp [Function.comp, Nat.add_assoc, Nat.add_comm 1 i]

theorem mkRows_getLast? (U : ℕ → ℝ) (id : ℕ) :
    ∀ (k start : ℕ), 1 ≤ k →
      (mkRows U id start k).getLast? = some (mkRow U id (start + k - 1)) := by
  intro k
  induction k with
  | zero => intro start h; omega
  | succ k ih =>
      intro start _
      rcases Nat.eq_zero_or_pos k with hk | hk
      · subst hk; simp [mkRows]
      · have h1 := ih (start + 1) hk
        rw [mkRows, List.getLast?_cons, h1]
        have : start + 1 + k - 1 = start + (k + 1) - 1 := by omega
        simp [this]

theorem hist_foldl_epochsTrace (U : ℕ → ℝ) (id : ℕ) :
    ∀ (k start : ℕ) (st : Store),
      ((epochsTrace U start k).foldl (applyEvent id) st).history
        = st.history ++ mkRows U id start k := by
  intro k
  induction k with
  | zero => intro start st; simp [epochsTrace, mkRows]
  | succ k ih =>
      intro start st
      rw [epochsTrace, List.foldl_append, ih (start + 1)]
      simp [epochEvents, applyEvent, history_updateExp, mkRows, mkRow]

theorem lookup_foldl_epochsTrace_isSome (U : ℕ → ℝ) (id : ℕ) (k start : ℕ) (st : Store)
    (h : (lookupExp id st).isSome) :
    (lookupExp id ((epochsTrace U start k).foldl (applyEvent id) st)).isSome :=
  lookup_foldl_isSome id _ st h

theorem historyFor_queueAndRun (U : ℕ → ℝ) (dur : ℝ) (id : ℕ) (st : Store)
    (x0 : ExperimentRec) (hx : lookupExp id st = some x0) :
    historyFor id (queueAndRun U dur id st) = mkRows U id 1 x0.epochs.toNat := by
  have hq : lookupExp id (queueStore id st)
      = some { x0 with status := "queued", current_epoch := 0 } := by
    rw [lookupExp_queueStore, hx]; rfl
  unfold queueAndRun runExperiment
  rw [hq]
  have hhist : ((runnerTrace U dur x0.epochs.toNat).foldl (applyEvent id)
      (queueStore id st)).history
      = (queueStore id st).history ++ mkRows U id 1 x0.epochs.toNat := by
    rw [runnerTrace, List.foldl_cons, List.foldl_append]
    have h1 : (applyEvent id (queueStore id st) REvent.setRunning).history
        = (queueStore id st).history := rfl
    rw [List.foldl_cons, List.foldl_nil, history_applyEvent_finalize,
      hist_foldl_epochsTrace, h1]
  unfold historyFor
  rw [hhist, history_queueStore, List.filter_append, historyFor_filter_clear,
    mkRows_filter_self, List.nil_append]
  exact (mkRows_sorted U id _ 1).insertionSort_eq

/-! ## Trace well-formedness and the states observable during a run -/

theorem traceOK_append :
    ∀ (l1 l2 : List REvent) (c : ℤ),
      TraceOK c (l1 ++ l2) ↔ TraceOK c l1 ∧ TraceOK (traceCe c l1) l2 := by
  intro l1
  induction l1 with
  | nil => intro l2 c; simp [TraceOK, traceCe]
  | cons ev t ih =>
      intro l2 c
      cases ev <;> simp [TraceOK, traceCe, ih, and_assoc]

theorem traceCe_epochsTrace (U : ℕ → ℝ) :
    ∀ (k start : ℕ) (c : ℤ), traceCe c (epochsTrace U start k) = if k = 0 then c else ((start + k - 1 : ℕ) : ℤ) := by
  intro k
  induction k with
  | zero => intro start c; simp [epochsTrace, traceCe]
  | succ k ih =>
      intro start c
      rw [epochsTrace]
      have happ : ∀ (l1 l2 : List REvent) (d : ℤ),
          traceCe d (l1 ++ l2) = traceCe (traceCe d l1) l2 := by
        intro l1
        induction l1 with
        | nil => intro l2 d; rfl
        | cons ev t ih2 => intro l2 d; cases ev <;> simp [traceCe, ih2]
      rw [happ, ih (start + 1)]
      rcases Nat.eq_zero_or_pos k with hk | hk
      · subst hk; simp [epochEvents, traceCe]
      · have h1 : ¬ (k = 0) := by omega
        have h2 : start + 1 + k - 1 = start + (k + 1) - 1 := by omega
        simp [h1, h2]

theorem traceOK_epochsTrace (U : ℕ → ℝ) :
    ∀ (k start : ℕ), 1 ≤ start → TraceOK ((start : ℤ) - 1) (epochsTrace U start k) := by
  intro k
  induction k with
  | zero => intro start _; simp [epochsTrace, TraceOK]
  | succ k ih =>
      intro start hs
      rw [epochsTrace, traceOK_append]
      constructor
      · refine ⟨by omega, le_refl _, ?_⟩
        simp [TraceOK]
      · have hce : traceCe ((start : ℤ) - 1) (epochEvents U start) = (start : ℤ) := by
          simp [epochEvents, traceCe]
        rw [hce]
        have := ih (start + 1) (by omega)
        simpa using this

theorem traceOK_runnerTrace (U : ℕ → ℝ) (dur : ℝ) (n : ℕ) :
    TraceOK 0 (runnerTrace U dur n) := by
  rw [runnerTrace]
  show TraceOK 0 (epochsTrace U 1 n ++ [REvent.finalize dur])
  rw [traceOK_append]
  constructor
  · simpa using traceOK_epochsTrace U n 1 (le_refl 1)
  · simp [TraceOK]

theorem ceOf_eq (id : ℕ) (st : Store) (x0 : ExperimentRec)
    (hx : lookupExp id st = some x0) : ceOf id st = x0.current_epoch := by
  simp [ceOf, hx]

theorem scanl_head (f : Store → REvent → Store) (b : Store) (l : List REvent) :
    (l.scanl f b).head? = some b := by
  cases l <;> simp [List.scanl]

theorem run_scanl_inv (id : ℕ) :
    ∀ (l : List REvent) (st : Store) (x0 : ExperimentRec),
      lookupExp id st = some x0 → TraceOK x0.current_epoch l →
      (∀ h ∈ st.history, h.experiment_id = id → h.epoch ≤ x0.current_epoch) →
      (∀ s' ∈ l.scanl (applyEvent id) st, ∀ h ∈ s'.history, h.experiment_id = id →
          h.epoch ≤ ceOf id s') ∧
      List.Chain' (fun a b => ceOf id a ≤ ceOf id b) (l.scanl (applyEvent id) st) := by
  intro l
  induction l with
  | nil =>
      intro st x0 hx _ hrows
      constructor
      · intro s' hs'
        rw [List.scanl_nil, List.mem_singleton] at hs'
        subst hs'
        rw [ceOf_eq id _ x0 hx]
        exact hrows
      · simp [List.scanl_nil]
  | cons ev t ih =>
      intro st x0 hx hok hrows
      rw [List.scanl_cons, List.singleton_append]
      -- establish the shape of the successor state per event
      have hstep : ∃ x1 : ExperimentRec,
          lookupExp id (applyEvent id st ev) = some x1 ∧
          x0.current_epoch ≤ x1.current_epoch ∧
          TraceOK x1.current_epoch t ∧
          (∀ h ∈ (applyEvent id st ev).history, h.experiment_id = id →
            h.epoch ≤ x1.current_epoch) := by
        cases ev with
        | setRunning =>
            refine ⟨{ x0 with status := "running" }, ?_, le_refl _, ?_, ?_⟩
            · rw [applyEvent, lookupExp_updateExp, hx, Option.map_some']
              intro x; rfl
            · simpa [TraceOK] using hok
            · exact hrows
        | setEpoch e =>
            rw [TraceOK] at hok
            refine ⟨{ x0 with current_epoch := (e : ℤ) }, ?_, le_of_lt hok.1, hok.2, ?_⟩
            · rw [applyEvent, lookupExp_updateExp, hx, Option.map_some']
              intro x; rfl
            · intro h hm hid
              exact le_trans (hrows h hm hid) (le_of_lt hok.1)
        | sleep =>
            exact ⟨x0, hx, le_refl _, by simpa [TraceOK] using hok, hrows⟩
        | insertHist e tl vl ta va =>
            rw [TraceOK] at hok
            refine ⟨x0, hx, le_refl _, hok.2, ?_⟩
            intro h hm hid
            rw [applyEvent] at hm
            rcases List.mem_append.1 hm with hold | hnew
            · exact hrows h hold hid
            · rw [List.mem_singleton] at hnew
              subst hnew
              exact hok.1
        | finalize d =>
            have hok' : TraceOK x0.current_epoch t := by simpa [TraceOK] using hok
            rcases hl : lastHistory id st with _ | last
            · refine ⟨{ x0 with status := "failed" }, ?_, le_refl _, hok', ?_⟩
              · simp only [applyEvent, hl]
                rw [lookupExp_updateExp, hx, Option.map_some']
                intro x; rfl
              · rw [history_applyEvent_finalize]
                exact hrows
            · refine ⟨{ x0 with status := "completed", accuracy := some last.val_acc, loss := some last.val_loss, duration := some d }, ?_, le_refl _, hok', ?_⟩
              · simp only [applyEvent, hl]
                rw [lookupExp_updateExp, hx, Option.map_some']
                intro x; rfl
              · rw [history_applyEvent_finalize]
                exact hrows
      obtain ⟨x1, hx1, hle1, hok1, hrows1⟩ := hstep
      obtain ⟨hmemtail, hchaintail⟩ := ih (applyEvent id st ev) x1 hx1 hok1 hrows1
      constructor
      · intro s' hs'
        rcases List.mem_cons.1 hs' with h1 | h2
        · subst h1
          rw [ceOf_eq id _ x0 hx]
          exact hrows
        · exact hmemtail s' h2
      · rw [List.chain'_cons']
        refine ⟨?_, hchaintail⟩
        intro b hb
        rw [scanl_head] at hb
        rw [Option.mem_def, Option.some_inj] at hb
        subst hb
        rw [ceOf_eq id st x0 hx, ceOf_eq id _ x1 hx1]
        exact hle1


/-! ## Preservation of the system invariant -/

theorem nodup_id_unique :
    ∀ (l : List ExperimentRec), (l.map (fun x => x.id)).Nodup →
      ∀ x y, x ∈ l → y ∈ l → x.id = y.id → x = y := by
  intro l
  induction l with
  | nil => intro _ x y hx; simp at hx
  | cons a t ih =>
      intro hnd x y hx hy hxy
      rw [List.map_cons, List.nodup_cons] at hnd
      rcases List.mem_cons.1 hx with h1 | h1 <;> rcases List.mem_cons.1 hy with h2 | h2
      · rw [h1, h2]
      · exfalso
        apply hnd.1
        rw [← h1, hxy]
        exact List.mem_map.2 ⟨y, h2, rfl⟩
      · exfalso
        refine hnd.1 (List.mem_map.2 ⟨x, h1, ?_⟩)
        rw [hxy, h2]
      · exact ih hnd.2 x y h1 h2 hxy

theorem lookup_unique (id : ℕ) (st : Store) (x0 : ExperimentRec)
    (hnd : IdsNodup st) (hx : lookupExp id st = some x0) :
    ∀ x ∈ st.experiments, x.id = id → x = x0 := by
  intro x hm hid
  have hmem0 : x0 ∈ st.experiments := List.mem_of_find?_eq_some hx
  have hid0 : x0.id = id := by
    have := List.find?_some hx
    simpa using this
  exact nodup_id_unique st.experiments hnd x x0 hm hmem0 (by rw [hid, hid0])

theorem find?_append_right {α : Type} (p : α → Bool) (l1 l2 : List α)
    (h : ∀ x ∈ l1, p x = false) : (l1 ++ l2).find? p = l2.find? p := by
  induction l1 with
  | nil => rfl
  | cons a t ih =>
      rw [List.cons_append, List.find?_cons, h a (List.mem_cons_self a t)]
      exact ih (fun x hx => h x (List.mem_cons_of_mem a hx))

theorem lookupExp_append_new (c : Config) (st : Store) (hid : IdLt st) :
    lookupExp st.nextId
      { st with experiments := st.experiments ++ [newRecord c st.nextId],
                nextId := st.nextId + 1 }
      = some (newRecord c st.nextId) := by
  unfold lookupExp
  show (st.experiments ++ [newRecord c st.nextId]).find? _ = _
  rw [find?_append_right]
  · simp [newRecord]
  · intro x hx
    simp only [decide_eq_false_iff_not]
    exact Nat.ne_of_lt (hid x hx)

theorem epochInv_updateExp_keep (id : ℕ) (f : ExperimentRec → ExperimentRec) (st : Store)
    (hf : ∀ x, (f x).current_epoch = x.current_epoch ∧ (f x).epochs = x.epochs) :
    EpochInv st → EpochInv (updateExp id f st) := by
  intro h x' hx'
  obtain ⟨x, hx, heq⟩ := (mem_updateExp id f st x').1 hx'
  rcases ite_eq_iff.1 heq.symm with ⟨_, he⟩ | ⟨_, he⟩
  · rw [← he]
    rw [(hf x).1, (hf x).2]
    exact h x hx
  · rw [← he]; exact h x hx

theorem epochInv_updateExp_ce (id : ℕ) (st : Store) (e : ℤ) (h0 : 0 ≤ e)
    (f : ExperimentRec → ExperimentRec)
    (hf : ∀ x, (f x).epochs = x.epochs ∧ (f x).current_epoch = e)
    (hb : ∀ x ∈ st.experiments, x.id = id → 0 ≤ x.epochs → e ≤ x.epochs) :
    EpochInv st → EpochInv (updateExp id f st) := by
  intro h x' hx'
  obtain ⟨x, hx, heq⟩ := (mem_updateExp id _ st x').1 hx'
  rcases ite_eq_iff.1 heq.symm with ⟨hcond, he⟩ | ⟨_, he⟩
  · rw [← he, (hf x).1, (hf x).2]
    exact ⟨h0, fun hep => hb x hx hcond hep⟩
  · rw [← he]; exact h x hx

theorem idLt_updateExp (id : ℕ) (f : ExperimentRec → ExperimentRec) (st : Store)
    (hf : ∀ x, (f x).id = x.id) : IdLt st → IdLt (updateExp id f st) := by
  intro h x' hx'
  obtain ⟨x, hx, heq⟩ := (mem_updateExp id f st x').1 hx'
  rw [nextId_updateExp]
  rcases ite_eq_iff.1 heq.symm with ⟨_, he⟩ | ⟨_, he⟩
  · rw [← he, hf x]; exact h x hx
  · rw [← he]; exact h x hx

theorem map_id_updateExp (id : ℕ) (f : ExperimentRec → ExperimentRec) (st : Store)
    (hf : ∀ x, (f x).id = x.id) :
    (updateExp id f st).experiments.map (fun x => x.id)
      = st.experiments.map (fun x => x.id) := by
  unfold updateExp
  rw [List.map_map]
  refine List.map_congr_left ?_
  intro x _
  by_cases hc : x.id = id <;> simp [Function.comp, hc, hf x]

theorem idsNodup_updateExp (id : ℕ) (f : ExperimentRec → ExperimentRec) (st : Store)
    (hf : ∀ x, (f x).id = x.id) : IdsNodup st → IdsNodup (updateExp id f st) := by
  intro h
  unfold IdsNodup
  rw [map_id_updateExp id f st hf]
  exact h

theorem evOK_transport (st st' : Store) (id : ℕ)
    (hkeep : ∀ x' ∈ st'.experiments, x'.id = id →
      ∃ x ∈ st.experiments, x.id = id ∧ x'.epochs = x.epochs) :
    ∀ ev, evOK st id ev → evOK st' id ev := by
  intro ev h
  cases ev with
  | setEpoch e =>
      obtain ⟨h1, h2⟩ := h
      refine ⟨h1, ?_⟩
      intro x' hx' hid
      obtain ⟨x, hx, hxid, hep⟩ := hkeep x' hx' hid
      rw [hep]
      exact h2 x hx hxid
  | setRunning => trivial
  | sleep => trivial
  | insertHist e tl vl ta va => trivial
  | finalize d => trivial

theorem evOK_updateExp (st : Store) (uid tid : ℕ) (f : ExperimentRec → ExperimentRec)
    (hf : ∀ x, (f x).id = x.id ∧ (f x).epochs = x.epochs) :
    ∀ ev, evOK st tid ev → evOK (updateExp uid f st) tid ev := by
  refine evOK_transport st _ tid ?_
  intro x' hx' hid
  obtain ⟨x, hx, heq⟩ := (mem_updateExp uid f st x').1 hx'
  rcases ite_eq_iff.1 heq.symm with ⟨_, he⟩ | ⟨_, he⟩
  · refine ⟨x, hx, ?_, ?_⟩
    · rw [← (hf x).1, he, hid]
    · rw [← he, (hf x).2]
  · exact ⟨x, hx, by rw [he]; exact hid, by rw [he]⟩

theorem evOK_filter (st : Store) (tid : ℕ) (p : ExperimentRec → Bool) :
    ∀ ev, evOK st tid ev →
      evOK { st with experiments := st.experiments.filter p,
                     history := st.history } tid ev := by
  refine evOK_transport st _ tid ?_
  intro x' hx' hid
  exact ⟨x', (List.mem_filter.1 hx').1, hid, rfl⟩

theorem evOK_append_new (st : Store) (tid : ℕ) (c : Config)
    (hne : tid ≠ st.nextId) :
    ∀ ev, evOK st tid ev →
      evOK { st with experiments := st.experiments ++ [newRecord c st.nextId],
                     nextId := st.nextId + 1 } tid ev := by
  refine evOK_transport st _ tid ?_
  intro x' hx' hid
  rcases List.mem_append.1 hx' with h1 | h2
  · exact ⟨x', h1, hid, rfl⟩
  · exfalso
    rw [List.mem_singleton] at h2
    apply hne
    rw [← hid, h2]
    rfl


theorem nextId_applyEvent (id : ℕ) (st : Store) (ev : REvent) :
    (applyEvent id st ev).nextId = st.nextId := by
  cases ev with
  | finalize d => rcases hl : lastHistory id st with _ | last <;> simp [applyEvent, hl, nextId_updateExp]
  | setRunning => rfl
  | setEpoch e => rfl
  | sleep => rfl
  | insertHist e tl vl ta va => rfl

theorem epochInv_applyEvent (id : ℕ) (st : Store) (ev : REvent) (hev : evOK st id ev) :
    EpochInv st → EpochInv (applyEvent id st ev) := by
  intro h
  cases ev with
  | setRunning => exact epochInv_updateExp_keep id _ st (fun x => ⟨rfl, rfl⟩) h
  | setEpoch e =>
      obtain ⟨h1, h2⟩ := hev
      refine epochInv_updateExp_ce id st (e : ℤ) (by positivity) _
        (by intro x; exact ⟨rfl, rfl⟩) ?_ h
      intro x hx hid _
      exact h2 x hx hid
  | sleep => exact h
  | insertHist e tl vl ta va => exact h
  | finalize d =>
      rcases hl : lastHistory id st with _ | last <;> simp only [applyEvent, hl]
      · exact epochInv_updateExp_keep id _ st (fun x => ⟨rfl, rfl⟩) h
      · exact epochInv_updateExp_keep id _ st (fun x => ⟨rfl, rfl⟩) h

theorem idLt_applyEvent (id : ℕ) (st : Store) (ev : REvent) :
    IdLt st → IdLt (applyEvent id st ev) := by
  intro h
  cases ev with
  | setRunning => exact idLt_updateExp id _ st (fun x => rfl) h
  | setEpoch e => exact idLt_updateExp id _ st (fun x => rfl) h
  | sleep => exact h
  | insertHist e tl vl ta va => exact h
  | finalize d =>
      rcases hl : lastHistory id st with _ | last <;> simp only [applyEvent, hl]
      · exact idLt_updateExp id _ st (fun x => rfl) h
      · exact idLt_updateExp id _ st (fun x => rfl) h

theorem idsNodup_applyEvent (id : ℕ) (st : Store) (ev : REvent) :
    IdsNodup st → IdsNodup (applyEvent id st ev) := by
  intro h
  cases ev with
  | setRunning => exact idsNodup_updateExp id _ st (fun x => rfl) h
  | setEpoch e => exact idsNodup_updateExp id _ st (fun x => rfl) h
  | sleep => exact h
  | insertHist e tl vl ta va => exact h
  | finalize d =>
      rcases hl : lastHistory id st with _ | last <;> simp only [applyEvent, hl]
      · exact idsNodup_updateExp id _ st (fun x => rfl) h
      · exact idsNodup_updateExp id _ st (fun x => rfl) h

theorem evOK_applyEvent (id : ℕ) (st : Store) (ev : REvent) (tid : ℕ) (ev' : REvent) :
    evOK st tid ev' → evOK (applyEvent id st ev) tid ev' := by
  intro h
  cases ev with
  | setRunning => exact evOK_updateExp st id tid _ (by intro x; exact ⟨rfl, rfl⟩) ev' h
  | setEpoch e => exact evOK_updateExp st id tid _ (by intro x; exact ⟨rfl, rfl⟩) ev' h
  | sleep => exact h
  | insertHist e tl vl ta va =>
      exact evOK_transport st _ tid (fun x' hx' hid => ⟨x', hx', hid, rfl⟩) ev' h
  | finalize d =>
      rcases hl : lastHistory id st with _ | last <;> simp only [applyEvent, hl]
      · exact evOK_updateExp st id tid _ (by intro x; exact ⟨rfl, rfl⟩) ev' h
      · exact evOK_updateExp st id tid _ (by intro x; exact ⟨rfl, rfl⟩) ev' h

theorem taskOK_applyEvent (id : ℕ) (st : Store) (ev : REvent) (t : RTask) :
    taskOK st t → taskOK (applyEvent id st ev) t := by
  intro h
  cases t with
  | pending i => trivial
  | started i evs =>
      intro e he
      exact evOK_applyEvent id st ev i e (h e he)

theorem epochInv_queueStore (id : ℕ) (st : Store) :
    EpochInv st → EpochInv (queueStore id st) := by
  intro h
  exact epochInv_updateExp_ce id st 0 (le_refl 0) _
    (by intro x; exact ⟨rfl, rfl⟩) (fun x _ _ hep => hep) h

theorem idLt_queueStore (id : ℕ) (st : Store) : IdLt st → IdLt (queueStore id st) :=
  fun h => idLt_updateExp id _ st (fun x => rfl) h

theorem idsNodup_queueStore (id : ℕ) (st : Store) :
    IdsNodup st → IdsNodup (queueStore id st) :=
  fun h => idsNodup_updateExp id _ st (fun x => rfl) h

theorem nextId_queueStore (id : ℕ) (st : Store) : (queueStore id st).nextId = st.nextId := rfl

theorem taskOK_queueStore (id : ℕ) (st : Store) (t : RTask) :
    taskOK st t → taskOK (queueStore id st) t := by
  intro h
  cases t with
  | pending i => trivial
  | started i evs =>
      intro e he
      exact evOK_updateExp st id i _ (by intro x; exact ⟨rfl, rfl⟩) e (h e he)

theorem epochInv_delete (id : ℕ) (st : Store) :
    EpochInv st → EpochInv (deleteExperiment id st) := by
  intro h x' hx'
  exact h x' (List.mem_filter.1 hx').1

theorem idLt_delete (id : ℕ) (st : Store) : IdLt st → IdLt (deleteExperiment id st) := by
  intro h x' hx'
  exact h x' (List.mem_filter.1 hx').1

theorem idsNodup_delete (id : ℕ) (st : Store) :
    IdsNodup st → IdsNodup (deleteExperiment id st) := by
  intro h
  exact List.Nodup.sublist ((List.filter_sublist _).map _) h

theorem taskOK_delete (id : ℕ) (st : Store) (t : RTask) :
    taskOK st t → taskOK (deleteExperiment id st) t := by
  intro h
  cases t with
  | pending i => trivial
  | started i evs =>
      intro e he
      refine evOK_transport st _ i ?_ e (h e he)
      intro x' hx' hid
      exact ⟨x', (List.mem_filter.1 hx').1, hid, rfl⟩

theorem epochInv_create (c : Config) (st : Store) :
    EpochInv st →
      EpochInv { st with experiments := st.experiments ++ [newRecord c st.nextId],
                         nextId := st.nextId + 1 } := by
  intro h x' hx'
  rcases List.mem_append.1 hx' with h1 | h2
  · exact h x' h1
  · rw [List.mem_singleton] at h2
    subst h2
    exact ⟨le_refl 0, fun hep => hep⟩

theorem idLt_create (c : Config) (st : Store) :
    IdLt st →
      IdLt { st with experiments := st.experiments ++ [newRecord c st.nextId],
                     nextId := st.nextId + 1 } := by
  intro h x' hx'
  rcases List.mem_append.1 hx' with h1 | h2
  · exact Nat.lt_succ_of_lt (h x' h1)
  · rw [List.mem_singleton] at h2
    subst h2
    exact Nat.lt_succ_self _

theorem idsNodup_create (c : Config) (st : Store) (hlt : IdLt st) :
    IdsNodup st →
      IdsNodup { st with experiments := st.experiments ++ [newRecord c st.nextId],
                         nextId := st.nextId + 1 } := by
  intro h
  unfold IdsNodup
  show (List.map (fun x => x.id) (st.experiments ++ [newRecord c st.nextId])).Nodup
  rw [List.map_append]
  rw [List.nodup_append]
  refine ⟨h, by simp, ?_⟩
  intro a ha hb
  simp only [List.map_cons, List.map_nil, List.mem_singleton, newRecord] at hb
  obtain ⟨x, hx, hxa⟩ := List.mem_map.1 ha
  rw [← hxa] at hb
  exact absurd hb (Nat.ne_of_lt (hlt x hx))

theorem sysInv_postApi (r : CreateRequest) (sys : Sys) (h : SysInv sys) :
    SysInv (postApi r sys).2 := by
  obtain ⟨hEp, hLt, hNd, hTid, hTok⟩ := h
  unfold postApi
  split
  · exact ⟨hEp, hLt, hNd, hTid, hTok⟩
  · split
    · exact ⟨hEp, hLt, hNd, hTid, hTok⟩
    · split
      · exact ⟨hEp, hLt, hNd, hTid, hTok⟩
      · rename_i c htc
        split
        · rename_i heq
          have hst1 : (createExperiment c sys.store).2
              = { sys.store with
                  experiments := sys.store.experiments ++ [newRecord c sys.store.nextId],
                  nextId := sys.store.nextId + 1 } := rfl
          rw [heq] at hst1
          simp only at hst1
          rw [hst1]
          refine ⟨epochInv_create c sys.store hEp, idLt_create c sys.store hLt,
            idsNodup_create c sys.store hLt hNd, ?_, ?_⟩
          · intro t ht
            exact Nat.lt_succ_of_lt (hTid t ht)
          · intro t ht
            cases t with
            | pending i => trivial
            | started i evs =>
                intro e he
                refine evOK_append_new sys.store i c ?_ e (hTok _ ht e he)
                exact Nat.ne_of_lt (hTid _ ht)
        · rename_i body st1 heq
          have hpair : (createExperiment c sys.store).1 = some body ∧
              (createExperiment c sys.store).2 = st1 := by
            rw [heq]
            exact ⟨rfl, rfl⟩
          have hfetch : (createExperiment c sys.store).1 = some (newRecord c sys.store.nextId) :=
            lookupExp_append_new c sys.store hLt
          have hbody : body = newRecord c sys.store.nextId := by
            have := hpair.1.symm.trans hfetch
            exact Option.some_injective _ this
          have hst1 : st1 = { sys.store with
              experiments := sys.store.experiments ++ [newRecord c sys.store.nextId],
              nextId := sys.store.nextId + 1 } := by
            rw [← hpair.2]
            rfl
          have hbid : body.id = sys.store.nextId := by rw [hbody]; rfl
          subst hst1
          refine ⟨?_, ?_, ?_, ?_, ?_⟩
          · exact epochInv_queueStore _ _ (epochInv_create c sys.store hEp)
          · exact idLt_queueStore _ _ (idLt_create c sys.store hLt)
          · exact idsNodup_queueStore _ _ (idsNodup_create c sys.store hLt hNd)
          · intro t ht
            rcases List.mem_append.1 ht with h1 | h2
            · exact Nat.lt_succ_of_lt (hTid t h1)
            · rw [List.mem_singleton] at h2
              subst h2
              rw [nextId_queueStore]
              show body.id < sys.store.nextId + 1
              rw [hbid]
              exact Nat.lt_succ_self _
          · intro t ht
            rcases List.mem_append.1 ht with h1 | h2
            · refine taskOK_queueStore _ _ t ?_
              cases t with
              | pending i => trivial
              | started i evs =>
                  intro e he
                  refine evOK_append_new sys.store i c ?_ e (hTok _ h1 e he)
                  exact Nat.ne_of_lt (hTid _ h1)
            · rw [List.mem_singleton] at h2
              subst h2
              trivial

theorem sysInv_deleteApi (id : ℕ) (sys : Sys) (h : SysInv sys) :
    SysInv (deleteApi id sys).2 := by
  obtain ⟨hEp, hLt, hNd, hTid, hTok⟩ := h
  unfold deleteApi
  split
  · exact ⟨hEp, hLt, hNd, hTid, hTok⟩
  · split
    · exact ⟨hEp, hLt, hNd, hTid, hTok⟩
    · refine ⟨epochInv_delete id _ hEp, idLt_delete id _ hLt, idsNodup_delete id _ hNd,
        hTid, ?_⟩
      intro t ht
      exact taskOK_delete id _ t (hTok t ht)

theorem sysInv_runApi (id : ℕ) (sys : Sys) (h : SysInv sys) :
    SysInv (runApi id sys).2 := by
  obtain ⟨hEp, hLt, hNd, hTid, hTok⟩ := h
  unfold runApi
  split
  · exact ⟨hEp, hLt, hNd, hTid, hTok⟩
  · rename_i x0 hl
    split
    · exact ⟨hEp, hLt, hNd, hTid, hTok⟩
    · have hidlt : id < sys.store.nextId := by
        have hm := List.mem_of_find?_eq_some hl
        have hid : x0.id = id := by simpa using List.find?_some hl
        rw [← hid]
        exact hLt x0 hm
      refine ⟨epochInv_queueStore _ _ hEp, idLt_queueStore _ _ hLt,
        idsNodup_queueStore _ _ hNd, ?_, ?_⟩
      · intro t ht
        rcases List.mem_append.1 ht with h1 | h2
        · exact hTid t h1
        · rw [List.mem_singleton] at h2
          subst h2
          exact hidlt
      · intro t ht
        rcases List.mem_append.1 ht with h1 | h2
        · exact taskOK_queueStore _ _ t (hTok t h1)
        · rw [List.mem_singleton] at h2
          subst h2
          trivial

theorem setEpoch_mem_epochsTrace (U : ℕ → ℝ) :
    ∀ (k start e : ℕ), REvent.setEpoch e ∈ epochsTrace U start k →
      start ≤ e ∧ e < start + k := by
  intro k
  induction k with
  | zero => intro start e h; simp [epochsTrace] at h
  | succ k ih =>
      intro start e h
      rw [epochsTrace] at h
      rcases List.mem_append.1 h with h1 | h2
      · simp only [epochEvents, List.mem_cons, List.mem_singleton] at h1
        rcases h1 with h1 | h1 | h1
        · injection h1 with hh
          omega
        · exact absurd h1 (by simp)
        · exact absurd h1 (by simp)
      · have := ih (start + 1) e h2
        omega

theorem setEpoch_mem_runnerTrace (U : ℕ → ℝ) (dur : ℝ) (n e : ℕ)
    (h : REvent.setEpoch e ∈ runnerTrace U dur n) : 1 ≤ e ∧ e ≤ n := by
  rw [runnerTrace] at h
  rcases List.mem_cons.1 h with h1 | h1
  · exact absurd h1 (by simp)
  · rcases List.mem_append.1 h1 with h2 | h2
    · have := setEpoch_mem_epochsTrace U n 1 e h2
      omega
    · rw [List.mem_singleton] at h2
      exact absurd h2 (by simp)

theorem taskOK_startTask (U : ℕ → ℝ) (dur : ℝ) (id : ℕ) (st : Store)
    (hNd : IdsNodup st) (t : RTask) (ht : t ∈ startTask U dur id st) : taskOK st t := by
  unfold startTask at ht
  rcases hl : lookupExp id st with _ | x0 <;> rw [hl] at ht
  · simp at ht
  · rw [List.mem_singleton] at ht
    subst ht
    intro ev hev
    cases ev with
    | setRunning => trivial
    | sleep => trivial
    | insertHist e tl vl ta va => trivial
    | finalize d => trivial
    | setEpoch e =>
        obtain ⟨h1, h2⟩ := setEpoch_mem_runnerTrace U dur _ e hev
        refine ⟨h1, ?_⟩
        intro x hx hxid
        have hxeq : x = x0 := lookup_unique id st x0 hNd hl x hx hxid
        subst hxeq
        omega

theorem taskIdOf_startTask (U : ℕ → ℝ) (dur : ℝ) (id : ℕ) (st : Store)
    (t : RTask) (ht : t ∈ startTask U dur id st) : taskIdOf t = id := by
  unfold startTask at ht
  rcases hl : lookupExp id st with _ | x0 <;> rw [hl] at ht
  · simp at ht
  · rw [List.mem_singleton] at ht
    subst ht
    rfl

theorem sysStep_inv (a b : Sys) (hstep : SysStep a b) (h : SysInv a) : SysInv b := by
  cases hstep with
  | post r => exact sysInv_postApi r a h
  | del id => exact sysInv_deleteApi id a h
  | runReq id => exact sysInv_runApi id a h
  | startRun U dur id st pre suf =>
      obtain ⟨hEp, hLt, hNd, hTid, hTok⟩ := h
      refine ⟨hEp, hLt, hNd, ?_, ?_⟩
      · intro t ht
        simp only [List.mem_append] at ht
        rcases ht with h1 | h1 | h1
        · exact hTid t (List.mem_append.2 (Or.inl h1))
        · rw [taskIdOf_startTask U dur id st t h1]
          have : taskIdOf (RTask.pending id) < st.nextId := by
            refine hTid _ ?_
            exact List.mem_append.2 (Or.inr (List.mem_cons_self _ _))
          exact this
        · exact hTid t (List.mem_append.2 (Or.inr (List.mem_cons_of_mem _ h1)))
      · intro t ht
        simp only [List.mem_append] at ht
        rcases ht with h1 | h1 | h1
        · exact hTok t (List.mem_append.2 (Or.inl h1))
        · exact taskOK_startTask U dur id st hNd t h1
        · exact hTok t (List.mem_append.2 (Or.inr (List.mem_cons_of_mem _ h1)))
  | stepRun id ev evs st pre suf =>
      obtain ⟨hEp, hLt, hNd, hTid, hTok⟩ := h
      have hmemt : RTask.started id (ev :: evs) ∈ pre ++ RTask.started id (ev :: evs) :: suf :=
        List.mem_append.2 (Or.inr (List.mem_cons_self _ _))
      have hevok : evOK st id ev := hTok _ hmemt ev (List.mem_cons_self _ _)
      refine ⟨epochInv_applyEvent id st ev hevok hEp, ?_, idsNodup_applyEvent id st ev hNd,
        ?_, ?_⟩
      · exact idLt_applyEvent id st ev hLt
      · intro t ht
        rw [nextId_applyEvent]
        simp only [List.mem_append, List.mem_cons] at ht
        rcases ht with h1 | h1 | h1
        · exact hTid t (List.mem_append.2 (Or.inl h1))
        · subst h1
          have h2 : taskIdOf (RTask.started id (ev :: evs)) < st.nextId := hTid _ hmemt
          exact h2
        · exact hTid t (List.mem_append.2 (Or.inr (List.mem_cons_of_mem _ h1)))
      · intro t ht
        simp only [List.mem_append, List.mem_cons] at ht
        rcases ht with h1 | h1 | h1
        · exact taskOK_applyEvent id st ev t (hTok t (List.mem_append.2 (Or.inl h1)))
        · subst h1
          refine taskOK_applyEvent id st ev _ ?_
          intro e he
          exact hTok _ hmemt e (List.mem_cons_of_mem _ he)
        · exact taskOK_applyEvent id st ev t
            (hTok t (List.mem_append.2 (Or.inr (List.mem_cons_of_mem _ h1))))
  | dropTask id st pre suf =>
      obtain ⟨hEp, hLt, hNd, hTid, hTok⟩ := h
      refine ⟨hEp, hLt, hNd, ?_, ?_⟩
      · intro t ht
        rcases List.mem_append.1 ht with h1 | h1
        · exact hTid t (List.mem_append.2 (Or.inl h1))
        · exact hTid t (List.mem_append.2 (Or.inr (List.mem_cons_of_mem _ h1)))
      · intro t ht
        rcases List.mem_append.1 ht with h1 | h1
        · exact hTok t (List.mem_append.2 (Or.inl h1))
        · exact hTok t (List.mem_append.2 (Or.inr (List.mem_cons_of_mem _ h1)))

theorem sysInv_init : SysInv initSys := by
  refine ⟨?_, ?_, ?_, ?_, ?_⟩ <;> simp [initSys, EpochInv, IdLt, IdsNodup]

theorem reachable_inv (sys : Sys) (h : Reachable sys) : SysInv sys := by
  unfold Reachable at h
  induction h with
  | refl => exact sysInv_init
  | tail hab hbc ih => exact sysStep_inv _ _ hbc ih


/-! ## Reduction helpers for the handlers and the runner -/

theorem runExperiment_eq_foldl (U : ℕ → ℝ) (dur : ℝ) (id : ℕ) (st : Store)
    (x0 : ExperimentRec) (hx : lookupExp id st = some x0) :
    runExperiment U dur id st
      = (runnerTrace U dur x0.epochs.toNat).foldl (applyEvent id) st := by
  unfold runExperiment
  rw [hx]

theorem runStates_eq_scanl (U : ℕ → ℝ) (dur : ℝ) (id : ℕ) (st : Store)
    (x0 : ExperimentRec) (hx : lookupExp id st = some x0) :
    runStates U dur id st
      = (runnerTrace U dur x0.epochs.toNat).scanl (applyEvent id) st := by
  unfold runStates
  rw [hx]

theorem deleteApi_eq (id : ℕ) (sys : Sys) (x0 : ExperimentRec)
    (hx : lookupExp id sys.store = some x0) :
    deleteApi id sys
      = if x0.status = "running" then (DeleteResult.cannotDeleteRunning, sys)
        else (DeleteResult.success, { sys with store := deleteExperiment id sys.store }) := by
  unfold deleteApi
  rw [hx]

/-- C10: `runExperiment` on an id without an experiment record returns
without touching the store at all. -/
theorem run_missing_id_noop (U : ℕ → ℝ) (dur : ℝ) (id : ℕ) (st : Store)
    (h : lookupExp id st = none) : runExperiment U dur id st = st := by
  unfold runExperiment
  rw [h]

theorem run_missing_id_noop_witness :
    lookupExp 2 wRunStore = none ∧ runExperiment wU 1 2 wRunStore = wRunStore :=
  ⟨rfl, run_missing_id_noop wU 1 2 wRunStore rfl⟩

/-- C6: deleting an existing experiment fails with 400 and leaves the store
unchanged when its status is "running"; for any other status it succeeds,
removes the experiment row and every history row of that id, and keeps all
other rows. -/
theorem delete_experiment_spec (id : ℕ) (sys : Sys) (x0 : ExperimentRec)
    (hx : lookupExp id sys.store = some x0) :
    (x0.status = "running" →
      deleteApi id sys = (DeleteResult.cannotDeleteRunning, sys) ∧
        deleteStatus DeleteResult.cannotDeleteRunning = 400) ∧
    (x0.status ≠ "running" →
      (deleteApi id sys).1 = DeleteResult.success ∧
      lookupExp id (deleteApi id sys).2.store = none ∧
      historyFor id (deleteApi id sys).2.store = [] ∧
      (∀ x : ExperimentRec, x ∈ (deleteApi id sys).2.store.experiments ↔
        x ∈ sys.store.experiments ∧ x.id ≠ id) ∧
      (∀ hr : HistoryRow, hr ∈ (deleteApi id sys).2.store.history ↔
        hr ∈ sys.store.history ∧ hr.experiment_id ≠ id)) := by
  constructor
  · intro hs
    rw [deleteApi_eq id sys x0 hx, if_pos hs]
    exact ⟨rfl, rfl⟩
  · intro hs
    rw [deleteApi_eq id sys x0 hx, if_neg hs]
    refine ⟨rfl, ?_, ?_, ?_, ?_⟩
    · unfold lookupExp
      rw [List.find?_eq_none]
      intro x hxm
      simp only [deleteExperiment] at hxm
      have := (List.mem_filter.1 hxm).2
      simp only [decide_eq_true_eq] at this
      simp [this]
    · unfold historyFor
      show List.insertionSort _ (List.filter _ (List.filter _ sys.store.history)) = _
      rw [historyFor_filter_clear]
      rfl
    · intro x
      simp [deleteExperiment, List.mem_filter]
    · intro hr
      simp [deleteExperiment, List.mem_filter]

theorem delete_experiment_spec_witness :
    (lookupExp 2 c6Sys.store = some c6ExpRun ∧ c6ExpRun.status = "running" ∧
      deleteApi 2 c6Sys = (DeleteResult.cannotDeleteRunning, c6Sys)) ∧
    (lookupExp 1 c6Sys.store = some c6ExpDone ∧ c6ExpDone.status ≠ "running" ∧
      (deleteApi 1 c6Sys).1 = DeleteResult.success ∧
      lookupExp 1 (deleteApi 1 c6Sys).2.store = none ∧
      historyFor 1 (deleteApi 1 c6Sys).2.store = []) := by
  constructor
  · exact ⟨rfl, rfl, ((delete_experiment_spec 2 c6Sys c6ExpRun rfl).1 rfl).1⟩
  · have h2 := (delete_experiment_spec 1 c6Sys c6ExpDone rfl).2 (by decide)
    exact ⟨rfl, by decide, h2.1, h2.2.1, h2.2.2.1⟩

/-- C9: a present-but-falsy required field (`""` for name or optimizer, or
`0` for learning_rate, batch_size or epochs) is rejected as HTTP 400
"Missing required fields" because the check tests JavaScript truthiness;
`model_type`, `hidden_layers` and `neurons_per_layer` are not checked, so
their absence never triggers that 400. -/
theorem falsy_required_fields :
    (∀ (r : CreateRequest) (sys : Sys),
      (r.name = some "" ∨ r.learning_rate = some 0 ∨ r.batch_size = some 0 ∨
        r.epochs = some 0 ∨ r.optimizer = some "") →
      postApi r sys = (PostResult.missingFields, sys) ∧
        postStatus PostResult.missingFields = 400) ∧
    (∀ (r : CreateRequest) (sys : Sys),
      requiredFieldsPresent (stripModelFields r) = true →
      (postApi (stripModelFields r) sys).1 ≠ PostResult.missingFields) := by
  constructor
  · intro r sys hfalsy
    have hreq : requiredFieldsPresent r = false := by
      rcases hfalsy with h | h | h | h | h <;>
        simp [requiredFieldsPresent, truthyStr, truthyRat, truthyInt, h]
    refine ⟨?_, rfl⟩
    unfold postApi
    rw [if_pos hreq]
  · intro r sys hp
    unfold postApi
    rw [if_neg (by simp [hp])]
    split
    · simp
    · split
      · simp
      · split
        · simp
        · simp

theorem falsy_required_fields_witness :
    (c9ReqZero.epochs = some 0 ∧
      postApi c9ReqZero initSys = (PostResult.missingFields, initSys)) ∧
    (requiredFieldsPresent c9ReqNoModel = true ∧
      (postApi c9ReqNoModel initSys).1 ≠ PostResult.missingFields) := by
  constructor
  · exact ⟨rfl,
      (falsy_required_fields.1 c9ReqZero initSys (Or.inr (Or.inr (Or.inr (Or.inl rfl))))).1⟩
  · exact ⟨rfl, falsy_required_fields.2 wReq1 initSys rfl⟩


theorem postApi_success (r : CreateRequest) (sys : Sys) (c : Config)
    (hpres : requiredFieldsPresent r = true)
    (hfind : findSimilarExperiment r sys.store = none)
    (hcfg : toConfig? r = some c)
    (hlt : IdLt sys.store) :
    postApi r sys
      = (PostResult.created (newRecord c sys.store.nextId),
         ⟨postSuccessStore c sys.store,
          sys.tasks ++ [RTask.pending sys.store.nextId]⟩) := by
  unfold postApi
  rw [if_neg (by simp [hpres])]
  split
  · rename_i x0 heq
    exact absurd (heq.symm.trans hfind) (by simp)
  · split
    · rename_i heq
      exact absurd (heq.symm.trans hcfg) (by simp)
    · rename_i c' htc
      have hc' : c' = c := Option.some_injective _ (htc.symm.trans hcfg)
      split
      · rename_i st1 heq
        rw [hc'] at heq
        have h1 : (createExperiment c sys.store).1 = none := by rw [heq]
        have hfetch : (createExperiment c sys.store).1
            = some (newRecord c sys.store.nextId) := lookupExp_append_new c sys.store hlt
        exact absurd (hfetch.symm.trans h1) (by simp)
      · rename_i body st1 heq
        rw [hc'] at heq
        have h1 : (createExperiment c sys.store).1 = some body := by rw [heq]
        have hfetch : (createExperiment c sys.store).1
            = some (newRecord c sys.store.nextId) := lookupExp_append_new c sys.store hlt
        have hbody : body = newRecord c sys.store.nextId :=
          Option.some_injective _ (h1.symm.trans hfetch)
        have hst1 : st1 = insertedStore c sys.store := by
          have h2 : (createExperiment c sys.store).2 = st1 := by rw [heq]
          rw [← h2]
          rfl
        subst hbody
        subst hst1
        rfl

/-- C8: the 201 response body of a successful create is the row as fetched
right after the insert and before queueing — status "not_started",
current_epoch 0 — while the stored row is already "queued" when the
response is sent. -/
theorem create_response_snapshot (r : CreateRequest) (sys : Sys) (c : Config)
    (hpres : requiredFieldsPresent r = true)
    (hfind : findSimilarExperiment r sys.store = none)
    (hcfg : toConfig? r = some c)
    (hlt : IdLt sys.store) :
    (postApi r sys).1 = PostResult.created (newRecord c sys.store.nextId) ∧
    (newRecord c sys.store.nextId).status = "not_started" ∧
    (newRecord c sys.store.nextId).current_epoch = 0 ∧
    postStatus (postApi r sys).1 = 201 ∧
    statusOf sys.store.nextId (postApi r sys).2.store = some "queued" := by
  have h := postApi_success r sys c hpres hfind hcfg hlt
  rw [h]
  refine ⟨rfl, rfl, rfl, rfl, ?_⟩
  unfold statusOf postSuccessStore
  rw [lookupExp_queueStore,
    show lookupExp sys.store.nextId (insertedStore c sys.store)
        = some (newRecord c sys.store.nextId) from lookupExp_append_new c sys.store hlt]
  rfl

theorem create_response_snapshot_witness :
    requiredFieldsPresent wReq1 = true ∧
    findSimilarExperiment wReq1 initSys.store = none ∧
    toConfig? wReq1 = some wCfg1 ∧
    (postApi wReq1 initSys).1 = PostResult.created (newRecord wCfg1 1) ∧
    (newRecord wCfg1 1).status = "not_started" ∧
    (newRecord wCfg1 1).current_epoch = 0 ∧
    statusOf 1 (postApi wReq1 initSys).2.store = some "queued" := by
  have h := create_response_snapshot wReq1 initSys wCfg1 rfl rfl rfl
    (by intro x hx; simp [initSys] at hx)
  exact ⟨rfl, rfl, rfl, h.1, h.2.1, h.2.2.1, h.2.2.2.2⟩

/-- C3 as stated is false: with the identical configuration tuple but an
empty name, the second request fails the truthiness presence check and gets
400 "Missing required fields", not 409, even though a matching experiment is
already stored (and the store is unchanged). -/
theorem duplicate_config_cex :
    wQueuedBody ∈ wSys1.store.experiments ∧
    tupleMatch wQueuedBody wCfg1 ∧
    wReqEmptyName = { wReq1 with name := some "" } ∧
    (postApi wReqEmptyName wSys1).1 = PostResult.missingFields ∧
    postStatus (postApi wReqEmptyName wSys1).1 = 400 ∧
    (postApi wReqEmptyName wSys1).2 = wSys1 := by
  refine ⟨List.Mem.head _, ⟨rfl, rfl, rfl, rfl, rfl, rfl, rfl⟩, rfl, rfl, rfl, rfl⟩

/-- C3 amended: when the second request passes the required-fields
truthiness check and its configuration tuple matches a stored experiment,
the POST fails with 409 carrying the id of a stored experiment with the
identical tuple, and nothing is inserted (the system is unchanged). -/
theorem duplicate_config_conflict (r : CreateRequest) (sys : Sys) (c : Config)
    (x : ExperimentRec)
    (hpres : requiredFieldsPresent r = true)
    (h1 : r.learning_rate = some c.learning_rate)
    (h2 : r.batch_size = some c.batch_size)
    (h3 : r.epochs = some c.epochs)
    (h4 : r.optimizer = some c.optimizer)
    (h5 : r.model_type = some c.model_type)
    (h6 : r.hidden_layers = some c.hidden_layers)
    (h7 : r.neurons_per_layer = some c.neurons_per_layer)
    (hx : x ∈ sys.store.experiments) (hm : tupleMatch x c) :
    ∃ y ∈ sys.store.experiments, tupleMatch y c ∧
      postApi r sys = (PostResult.conflict y.id, sys) ∧
      postStatus (PostResult.conflict y.id) = 409 := by
  obtain ⟨m1, m2, m3, m4, m5, m6, m7⟩ := hm
  have hcm : cfgMatch x r = true := by
    simp [cfgMatch, matchOpt, h1, h2, h3, h4, h5, h6, h7, m1, m2, m3, m4, m5, m6, m7]
  rcases hfy : findSimilarExperiment r sys.store with _ | y
  · exfalso
    have hfy' : sys.store.experiments.find? (fun z => cfgMatch z r) = none := hfy
    have := (List.find?_eq_none.1 hfy') x hx
    exact this hcm
  · have hfy' : sys.store.experiments.find? (fun z => cfgMatch z r) = some y := hfy
    have hymem : y ∈ sys.store.experiments := List.mem_of_find?_eq_some hfy'
    have hymatch : cfgMatch y r = true := by
      have := List.find?_some hfy'
      simpa using this
    have hytm : tupleMatch y c := by
      simp only [cfgMatch, matchOpt, h1, h2, h3, h4, h5, h6, h7, Bool.and_eq_true,
        decide_eq_true_eq] at hymatch
      exact ⟨hymatch.1.1.1.1.1.1, hymatch.1.1.1.1.1.2, hymatch.1.1.1.1.2,
        hymatch.1.1.1.2, hymatch.1.1.2, hymatch.1.2, hymatch.2⟩
    refine ⟨y, hymem, hytm, ?_, rfl⟩
    unfold postApi
    rw [if_neg (by simp [hpres]), hfy]

theorem duplicate_config_conflict_witness :
    requiredFieldsPresent wReqDup = true ∧
    wQueuedBody ∈ wSys1.store.experiments ∧ tupleMatch wQueuedBody wCfg1 ∧
    (∃ y ∈ wSys1.store.experiments, tupleMatch y wCfg1 ∧
      postApi wReqDup wSys1 = (PostResult.conflict y.id, wSys1) ∧
      postStatus (PostResult.conflict y.id) = 409) := by
  have hmem : wQueuedBody ∈ wSys1.store.experiments := List.Mem.head _
  have htm : tupleMatch wQueuedBody wCfg1 := ⟨rfl, rfl, rfl, rfl, rfl, rfl, rfl⟩
  exact ⟨rfl, hmem, htm,
    duplicate_config_conflict wReqDup wSys1 wCfg1 wQueuedBody rfl rfl rfl rfl rfl rfl
      rfl rfl hmem htm⟩

/-- C4 as stated is false: a create request whose epochs value 100 is far
outside the declared bound 1–50 is accepted with 201 and the row is
inserted — the POST handler performs no bound or enum validation. -/
theorem bounds_validation_cex :
    cfgOutOfBounds c4Cfg ∧
    toConfig? c4Req = some c4Cfg ∧
    (postApi c4Req initSys).1 = PostResult.created (newRecord c4Cfg 1) ∧
    postStatus (postApi c4Req initSys).1 = 201 ∧
    (postApi c4Req initSys).2.store.experiments ≠ [] := by
  refine ⟨by decide, rfl, rfl, rfl, fun h => List.noConfusion h⟩

/-- C4 amended: bound/enum validation exists only in the client-side form
schema (which rejects every out-of-bounds configuration); the POST handler
itself inserts any configuration that passes the truthiness presence check
and the duplicate check, regardless of bounds. -/
theorem bounds_validation_amended :
    (∀ c : Config, cfgOutOfBounds c → formSchemaCheck c = false) ∧
    (∀ (r : CreateRequest) (sys : Sys) (c : Config),
      requiredFieldsPresent r = true → findSimilarExperiment r sys.store = none →
      toConfig? r = some c → IdLt sys.store →
      (postApi r sys).1 = PostResult.created (newRecord c sys.store.nextId) ∧
      ∃ x ∈ (postApi r sys).2.store.experiments, x.id = sys.store.nextId ∧
        tupleMatch x c) := by
  constructor
  · intro c h
    rw [Bool.eq_false_iff]
    intro htrue
    simp only [formSchemaCheck, Bool.and_eq_true, decide_eq_true_eq] at htrue
    obtain ⟨⟨⟨⟨⟨⟨⟨⟨⟨⟨⟨⟨hname, hlr1⟩, hlr2⟩, hbs1⟩, hbs2⟩, hep1⟩, hep2⟩, hopt⟩,
      hmt⟩, hhl1⟩, hhl2⟩, hnp1⟩, hnp2⟩ := htrue
    rcases h with h | h | h | h | h | h | h | h | h | h | h | h <;>
      first
      | omega
      | linarith
      | tauto
  · intro r sys c hpres hfind hcfg hlt
    have h := postApi_success r sys c hpres hfind hcfg hlt
    rw [h]
    refine ⟨rfl, ?_⟩
    refine ⟨{ newRecord c sys.store.nextId with status := "queued", current_epoch := 0 },
      ?_, rfl, rfl, rfl, rfl, rfl, rfl, rfl, rfl⟩
    show _ ∈ (postSuccessStore c sys.store).experiments
    unfold postSuccessStore queueStore updateExp
    refine List.mem_map.2 ⟨newRecord c sys.store.nextId, ?_, ?_⟩
    · exact List.mem_append_right _ (List.mem_singleton.2 rfl)
    · rw [if_pos (show (newRecord c sys.store.nextId).id = sys.store.nextId from rfl)]

theorem bounds_validation_amended_witness :
    (cfgOutOfBounds c4Cfg ∧ formSchemaCheck c4Cfg = false) ∧
    (requiredFieldsPresent c4Req = true ∧
      (postApi c4Req initSys).1 = PostResult.created (newRecord c4Cfg 1)) := by
  constructor
  · exact ⟨by decide, bounds_validation_amended.1 c4Cfg (by decide)⟩
  · exact ⟨rfl, (bounds_validation_amended.2 c4Req initSys c4Cfg rfl rfl rfl
      (by intro x hx; simp [initSys] at hx)).1⟩


/-- C5 as stated is false: a create request with a truthy but negative
epochs value (-1) is accepted and persisted, reaching a state whose
experiment has current_epoch = 0 > epochs = -1. -/
theorem current_epoch_bound_cex :
    Reachable c5SysBad ∧ c5BadRec ∈ c5SysBad.store.experiments ∧
    ¬ (0 ≤ c5BadRec.current_epoch ∧ c5BadRec.current_epoch ≤ c5BadRec.epochs) := by
  refine ⟨Relation.ReflTransGen.single (SysStep.post c5Req initSys), List.Mem.head _, ?_⟩
  intro h
  exact absurd h.2 (by decide)

/-- C5 amended: in every reachable system state, every experiment row has
`0 ≤ current_epoch`, and `current_epoch ≤ epochs` whenever `epochs` is
non-negative (any experiment created through the API with a positive epochs
value satisfies this); and across the successive states observable during a
single run, `current_epoch` is monotonically non-decreasing. -/
theorem current_epoch_bound_amended :
    (∀ sys : Sys, Reachable sys → ∀ x ∈ sys.store.experiments,
      0 ≤ x.current_epoch ∧ (0 ≤ x.epochs → x.current_epoch ≤ x.epochs)) ∧
    (∀ (U : ℕ → ℝ) (dur : ℝ) (id : ℕ) (st : Store),
      List.Chain' (fun a b => ceOf id a ≤ ceOf id b)
        (runStates U dur id (queueStore id st))) := by
  constructor
  · intro sys h x hx
    exact (reachable_inv sys h).1 x hx
  · intro U dur id st
    rcases hq : lookupExp id (queueStore id st) with _ | x0
    · unfold runStates
      rw [hq]
      simp
    · rw [runStates_eq_scanl U dur id _ x0 hq]
      have hce0 : x0.current_epoch = 0 := by
        rw [lookupExp_queueStore] at hq
        rcases hls : lookupExp id st with _ | y
        · rw [hls] at hq; simp at hq
        · rw [hls] at hq
          simp only [Option.map_some'] at hq
          have := Option.some_injective _ hq
          rw [← this]
      have hok : TraceOK x0.current_epoch (runnerTrace U dur x0.epochs.toNat) := by
        rw [hce0]
        exact traceOK_runnerTrace U dur x0.epochs.toNat
      have hrows : ∀ h ∈ (queueStore id st).history, h.experiment_id = id →
          h.epoch ≤ x0.current_epoch := by
        intro h hm hid
        exfalso
        rw [history_queueStore] at hm
        have := (List.mem_filter.1 hm).2
        simp only [decide_eq_true_eq] at this
        exact this hid
      exact (run_scanl_inv id _ _ x0 hq hok hrows).2

theorem current_epoch_bound_amended_witness :
    (Reachable wSys1 ∧ wQueuedBody ∈ wSys1.store.experiments ∧
      0 ≤ wQueuedBody.current_epoch ∧
      (0 ≤ wQueuedBody.epochs → wQueuedBody.current_epoch ≤ wQueuedBody.epochs)) ∧
    List.Chain' (fun a b => ceOf 1 a ≤ ceOf 1 b)
      (runStates wU 1 1 (queueStore 1 w2Store)) := by
  constructor
  · have hreach : Reachable wSys1 := Relation.ReflTransGen.single (SysStep.post wReq1 initSys)
    have hmem : wQueuedBody ∈ wSys1.store.experiments := List.Mem.head _
    exact ⟨hreach, hmem, (current_epoch_bound_amended.1 wSys1 hreach wQueuedBody hmem).1,
      (current_epoch_bound_amended.1 wSys1 hreach wQueuedBody hmem).2⟩
  · exact current_epoch_bound_amended.2 wU 1 1 w2Store

/-- C2 as stated is false: the runner updates current_epoch FIRST and only
appends the history entry after the sleep, so there is an observable state
of the one-epoch run in which current_epoch = 1 while no history row for
epoch 1 has been written. -/
theorem runner_epoch_order_cex :
    ¬ (∀ s' ∈ runStates wU 1 1 (queueStore 1 w2Store), ∀ e : ℕ, 1 ≤ e →
        ceOf 1 s' = (e : ℤ) → ∃ h ∈ s'.history, h.epoch = (e : ℤ)) := by
  intro hclaim
  have hmem : w2Mid ∈ runStates wU 1 1 (queueStore 1 w2Store) :=
    List.Mem.tail _ (List.Mem.tail _ (List.Mem.head _))
  obtain ⟨h, hm, _⟩ := hclaim w2Mid hmem 1 (le_refl 1) rfl
  rw [show w2Mid.history = ([] : List HistoryRow) from rfl] at hm
  exact absurd hm (List.not_mem_nil h)

/-- C2 amended: per epoch the runner first sets current_epoch, then sleeps,
then simulates the metrics and appends the history entry; consequently in
every state observable during a run, every history row already written for
the experiment has epoch at most the current value of current_epoch. -/
theorem runner_epoch_order_amended (U : ℕ → ℝ) (dur : ℝ) (id : ℕ) (st : Store) :
    ∀ s' ∈ runStates U dur id (queueStore id st), ∀ h ∈ s'.history,
      h.experiment_id = id → h.epoch ≤ ceOf id s' := by
  rcases hq : lookupExp id (queueStore id st) with _ | x0
  · intro s' hs'
    unfold runStates at hs'
    rw [hq] at hs'
    rw [List.mem_singleton] at hs'
    subst hs'
    intro h hm hid
    exfalso
    rw [history_queueStore] at hm
    have := (List.mem_filter.1 hm).2
    simp only [decide_eq_true_eq] at this
    exact this hid
  · intro s' hs'
    rw [runStates_eq_scanl U dur id _ x0 hq] at hs'
    have hce0 : x0.current_epoch = 0 := by
      rw [lookupExp_queueStore] at hq
      rcases hls : lookupExp id st with _ | y
      · rw [hls] at hq; simp at hq
      · rw [hls] at hq
        simp only [Option.map_some'] at hq
        have := Option.some_injective _ hq
        rw [← this]
    have hok : TraceOK x0.current_epoch (runnerTrace U dur x0.epochs.toNat) := by
      rw [hce0]
      exact traceOK_runnerTrace U dur x0.epochs.toNat
    have hrows : ∀ h ∈ (queueStore id st).history, h.experiment_id = id →
        h.epoch ≤ x0.current_epoch := by
      intro h hm hid
      exfalso
      rw [history_queueStore] at hm
      have := (List.mem_filter.1 hm).2
      simp only [decide_eq_true_eq] at this
      exact this hid
    exact (run_scanl_inv id _ _ x0 hq hok hrows).1 s' hs'

theorem runner_epoch_order_amended_witness :
    w2End ∈ runStates wU 1 1 (queueStore 1 w2Store) ∧
    w2Row ∈ w2End.history ∧ w2Row.experiment_id = 1 ∧ w2Row.epoch ≤ ceOf 1 w2End := by
  have hmem : w2End ∈ runStates wU 1 1 (queueStore 1 w2Store) :=
    List.Mem.tail _ (List.Mem.tail _ (List.Mem.tail _ (List.Mem.tail _
      (List.Mem.tail _ (List.Mem.head _)))))
  have hr : w2Row ∈ w2End.history := List.Mem.head _
  exact ⟨hmem, hr, rfl,
    runner_epoch_order_amended wU 1 1 w2Store w2End hmem w2Row hr rfl⟩


theorem mkRows_eq_range_map (U : ℕ → ℝ) (id : ℕ) :
    ∀ (k start : ℕ),
      mkRows U id start k = (List.range k).map (fun i => mkRow U id (start + i)) := by
  intro k
  induction k with
  | zero => intro start; simp [mkRows]
  | succ k ih =>
      intro start
      rw [mkRows, List.range_succ_eq_map, List.map_cons, List.map_map, ih (start + 1)]
      refine congrArg₂ _ (by rw [Nat.add_zero]) ?_
      refine List.map_congr_left ?_
      intro i _
      show mkRow U id (start + 1 + i) = mkRow U id (start + (i + 1))
      exact congrArg (mkRow U id) (by omega)

theorem mkRows_one_eq_spec (U : ℕ → ℝ) (id n : ℕ) :
    mkRows U id 1 n = (List.range n).map (specMetricsRow U id) := by
  rw [mkRows_eq_range_map U id n 1]
  refine List.map_congr_left ?_
  intro i _
  rw [show 1 + i = i + 1 from Nat.add_comm 1 i]
  rfl

/-- C7: the metrics a run records for its 1-based epoch e = i+1 are exactly
train_loss = 0.5·exp(−0.1·e) + 0.1·U, val_loss = 0.6·exp(−0.1·e) + 0.15·U,
train_acc = 0.9 − 0.5·exp(−0.2·e) + 0.05·U, val_acc = 0.85 − 0.5·exp(−0.2·e)
+ 0.05·U with one fresh draw per metric, and the recorded quadruples do not
depend on the experiment's hyperparameters: any experiment with the same
epochs value (and the same random stream) records the same metric values. -/
theorem metrics_formula_spec (U : ℕ → ℝ) (dur : ℝ) (id : ℕ) (st : Store)
    (x0 : ExperimentRec) (n : ℕ)
    (hx : lookupExp id st = some x0) (hn : x0.epochs.toNat = n) :
    historyFor id (queueAndRun U dur id st) = (List.range n).map (specMetricsRow U id) ∧
    (∀ (st₂ : Store) (id₂ : ℕ) (x₂ : ExperimentRec),
      lookupExp id₂ st₂ = some x₂ → x₂.epochs = x0.epochs →
      (historyFor id₂ (queueAndRun U dur id₂ st₂)).map
          (fun h => (h.train_loss, h.val_loss, h.train_acc, h.val_acc))
        = (historyFor id (queueAndRun U dur id st)).map
          (fun h => (h.train_loss, h.val_loss, h.train_acc, h.val_acc))) := by
  have h1 : historyFor id (queueAndRun U dur id st)
      = (List.range n).map (specMetricsRow U id) := by
    rw [historyFor_queueAndRun U dur id st x0 hx, hn, mkRows_one_eq_spec]
  refine ⟨h1, ?_⟩
  intro st₂ id₂ x₂ hx₂ hep
  have h2 : historyFor id₂ (queueAndRun U dur id₂ st₂)
      = (List.range n).map (specMetricsRow U id₂) := by
    rw [historyFor_queueAndRun U dur id₂ st₂ x₂ hx₂, hep, hn, mkRows_one_eq_spec]
  rw [h1, h2, List.map_map, List.map_map]
  rfl

theorem metrics_formula_spec_witness :
    lookupExp 1 wRunStore = some wExpRun ∧ wExpRun.epochs.toNat = 3 ∧
    historyFor 1 (queueAndRun wU 1 1 wRunStore)
      = (List.range 3).map (specMetricsRow wU 1) :=
  ⟨rfl, rfl, (metrics_formula_spec wU 1 1 wRunStore wExpRun 3 rfl rfl).1⟩

/-- C1: when a run (queue followed by the scheduled runExperiment) ends with
status "completed", the history holds exactly `epochs` entries with
contiguous 1-based epoch numbers 1..epochs, and the experiment's accuracy
and loss equal the final history entry's val_acc and val_loss, with
accuracy, loss and duration all non-null. -/
theorem runner_completed_history (U : ℕ → ℝ) (dur : ℝ) (id : ℕ) (st : Store)
    (x0 : ExperimentRec)
    (hx : lookupExp id st = some x0)
    (hdone : statusOf id (queueAndRun U dur id st) = some "completed") :
    ∃ n : ℕ, 1 ≤ n ∧ x0.epochs = (n : ℤ) ∧
      (historyFor id (queueAndRun U dur id st)).map (fun h => h.epoch)
        = (List.range n).map (fun i => ((i + 1 : ℕ) : ℤ)) ∧
      ∃ x1 last, lookupExp id (queueAndRun U dur id st) = some x1 ∧
        (historyFor id (queueAndRun U dur id st)).getLast? = some last ∧
        x1.status = "completed" ∧ x1.accuracy = some last.val_acc ∧
        x1.loss = some last.val_loss ∧ x1.duration = some dur := by
  have hq : lookupExp id (queueStore id st)
      = some { x0 with status := "queued", current_epoch := 0 } := by
    rw [lookupExp_queueStore, hx]; rfl
  have hrun : queueAndRun U dur id st
      = applyEvent id ((epochsTrace U 1 x0.epochs.toNat).foldl (applyEvent id)
          (applyEvent id (queueStore id st) REvent.setRunning)) (REvent.finalize dur) := by
    show runExperiment U dur id (queueStore id st) = _
    rw [runExperiment_eq_foldl U dur id _ _ hq, runnerTrace, List.foldl_cons,
      List.foldl_append, List.foldl_cons, List.foldl_nil]
  obtain ⟨s2, hs2⟩ : ∃ s2, (epochsTrace U 1 x0.epochs.toNat).foldl (applyEvent id)
      (applyEvent id (queueStore id st) REvent.setRunning) = s2 := ⟨_, rfl⟩
  rw [hs2] at hrun
  have h2hist : s2.history = (queueStore id st).history ++ mkRows U id 1 x0.epochs.toNat := by
    rw [← hs2]
    rw [hist_foldl_epochsTrace U id x0.epochs.toNat 1 _]
    rfl
  have h2hf : historyFor id s2 = mkRows U id 1 x0.epochs.toNat := by
    unfold historyFor
    rw [h2hist, history_queueStore, List.filter_append, historyFor_filter_clear,
      mkRows_filter_self, List.nil_append]
    exact (mkRows_sorted U id _ 1).insertionSort_eq
  obtain ⟨x2, hx2⟩ : ∃ x2, lookupExp id s2 = some x2 := by
    have h1 : (lookupExp id (applyEvent id (queueStore id st) REvent.setRunning)).isSome :=
      lookup_applyEvent_isSome id _ _ (by rw [hq]; rfl)
    have h2 := lookup_foldl_isSome id (epochsTrace U 1 x0.epochs.toNat) _ h1
    rw [hs2] at h2
    exact Option.isSome_iff_exists.1 h2
  have hlast : lastHistory id s2 = (mkRows U id 1 x0.epochs.toNat).getLast? := by
    rw [lastHistory, h2hf]
  have hfinalhist : (queueAndRun U dur id st).history = s2.history := by
    rw [hrun]
    exact history_applyEvent_finalize id s2 dur
  have hfinalhf : historyFor id (queueAndRun U dur id st) = mkRows U id 1 x0.epochs.toNat := by
    unfold historyFor
    rw [hfinalhist, h2hist, history_queueStore, List.filter_append, historyFor_filter_clear,
      mkRows_filter_self, List.nil_append]
    exact (mkRows_sorted U id _ 1).insertionSort_eq
  rcases Nat.eq_zero_or_pos x0.epochs.toNat with hn0 | hnpos
  · exfalso
    have hlast0 : lastHistory id s2 = none := by
      rw [hlast, hn0]
      rfl
    have hfin : applyEvent id s2 (REvent.finalize dur)
        = updateExp id (fun x => { x with status := "failed" }) s2 := by
      simp only [applyEvent, hlast0]
    rw [hrun] at hdone
    rw [hfin] at hdone
    unfold statusOf at hdone
    rw [lookupExp_updateExp] at hdone
    · rw [hx2] at hdone
      simp only [Option.map_some'] at hdone
      have h3 := Option.some_injective _ hdone
      exact absurd h3 (by decide)
    · intro x; rfl
  · have hm1 : 1 + x0.epochs.toNat - 1 = x0.epochs.toNat := by omega
    have hlastpos : lastHistory id s2 = some (mkRow U id x0.epochs.toNat) := by
      rw [hlast, mkRows_getLast? U id x0.epochs.toNat 1 hnpos, hm1]
    have hfin : applyEvent id s2 (REvent.finalize dur)
        = updateExp id (fun x => { x with status := "completed", accuracy := some (mkRow U id x0.epochs.toNat).val_acc, loss := some (mkRow U id x0.epochs.toNat).val_loss, duration := some dur }) s2 := by
      simp only [applyEvent, hlastpos]
    refine ⟨x0.epochs.toNat, hnpos, by omega, ?_, ?_⟩
    · rw [hfinalhf, mkRows_map_epoch U id x0.epochs.toNat 1]
      refine List.map_congr_left ?_
      intro i _
      rw [Nat.add_comm 1 i]
    · refine ⟨{ x2 with status := "completed", accuracy := some (mkRow U id x0.epochs.toNat).val_acc, loss := some (mkRow U id x0.epochs.toNat).val_loss, duration := some dur }, mkRow U id x0.epochs.toNat, ?_, ?_, rfl, rfl, rfl, rfl⟩
      · rw [hrun, hfin]
        rw [lookupExp_updateExp]
        · rw [hx2]
          rfl
        · intro x; rfl
      · rw [hfinalhf, mkRows_getLast? U id x0.epochs.toNat 1 hnpos, hm1]

theorem runner_completed_history_witness :
    lookupExp 1 wRunStore = some wExpRun ∧
    statusOf 1 (queueAndRun wU 1 1 wRunStore) = some "completed" ∧
    (∃ n : ℕ, 1 ≤ n ∧ wExpRun.epochs = (n : ℤ) ∧
      (historyFor 1 (queueAndRun wU 1 1 wRunStore)).map (fun h => h.epoch)
        = (List.range n).map (fun i => ((i + 1 : ℕ) : ℤ)) ∧
      ∃ x1 last, lookupExp 1 (queueAndRun wU 1 1 wRunStore) = some x1 ∧
        (historyFor 1 (queueAndRun wU 1 1 wRunStore)).getLast? = some last ∧
        x1.status = "completed" ∧ x1.accuracy = some last.val_acc ∧
        x1.loss = some last.val_loss ∧ x1.duration = some 1) :=
  ⟨rfl, rfl, runner_completed_history wU 1 1 wRunStore wExpRun rfl rfl⟩

end
